import Mathlib

/-!
# Two-layer network trainer (`neural_network.cpp`): embedding and verified properties

The C++ source works on Armadillo matrices of the scalar type `real`.  Here a
matrix with `m` rows and `n` columns is `Matrix (Fin m) (Fin n) R`, so that the
conformance checks Armadillo performs at run time are part of the types, and
`R` is any linearly ordered field (the concrete evaluations use `ℚ`): the
arithmetic is exact, rounding of the machine type is not represented.  Values
of type `int` are mathematical integers with the C++ truncating `/` and `%`
(`Int.tdiv`, `Int.tmod`); signed overflow, which C++ leaves undefined, is
outside the model.
-/

set_option linter.unusedSectionVars false

namespace NeuralNet

open Matrix

/-! ## Data model -/

/-- Modelled from the spec: the class `NeuralNetwork` is declared in
`neural_network.h`; it has `num_layers = 2`, weights `W[0]` (hidden × input),
`W[1]` (output × hidden) and bias columns `b[0]`, `b[1]`. -/
structure NeuralNetwork (R : Type) (I H C : Nat) where
  W0 : Matrix (Fin H) (Fin I) R
  W1 : Matrix (Fin C) (Fin H) R
  b0 : Fin H → R
  b1 : Fin C → R

/-- Modelled from the spec: `struct cache` of `neural_network.h`: the input
batch `X`, the pre-activations `z[0]`, `z[1]`, the activations `a[0]`, `a[1]`
and the output `yc`. -/
structure cache (R : Type) (I H C n : Nat) where
  X : Matrix (Fin I) (Fin n) R
  z0 : Matrix (Fin H) (Fin n) R
  z1 : Matrix (Fin C) (Fin n) R
  a0 : Matrix (Fin H) (Fin n) R
  a1 : Matrix (Fin C) (Fin n) R
  yc : Matrix (Fin C) (Fin n) R

/-- Modelled from the spec: `struct grads` of `neural_network.h`: one gradient
per weight matrix (`dW[0]`, `dW[1]`) and per bias column (`db[0]`, `db[1]`). -/
structure grads (R : Type) (I H C : Nat) where
  dW0 : Matrix (Fin H) (Fin I) R
  dW1 : Matrix (Fin C) (Fin H) R
  db0 : Fin H → R
  db1 : Fin C → R

/-- The routines the source calls but does not define (`sigmoid`, `softmax`
and `gradcheck` come from the project's utility header; `log` and the 2-norm
`arma::norm(M, 2)`, which needs a square root, from the numerical libraries).
They are parameters of the embedding: every theorem holds for all of them. -/
structure Primitives (R : Type) where
  sigmoid : {m n : Nat} → Matrix (Fin m) (Fin n) R → Matrix (Fin m) (Fin n) R
  softmax : {m n : Nat} → Matrix (Fin m) (Fin n) R → Matrix (Fin m) (Fin n) R
  log : R → R
  gradcheck : {I H C : Nat} → grads R I H C → grads R I H C → Bool
  norm2 : {m n : Nat} → Matrix (Fin m) (Fin n) R → R

section Engine

variable {R : Type} [LinearOrderedField R] {I H C n : Nat}

/-- The Armadillo call `arma::repmat(b, 1, N)`: the column `b` repeated
`N` times. -/
def repmat {m : Nat} (b : Fin m → R) (N : Nat) : Matrix (Fin m) (Fin N) R :=
  fun i _ => b i

/-- The Armadillo call `arma::sum(M, 1)`: the column of row sums. -/
def rowsum {m k : Nat} (M : Matrix (Fin m) (Fin k) R) : Fin m → R :=
  fun i => ∑ j, M i j

/-- The Armadillo call `arma::accu(arma::square(M))`. -/
def accuSquare {m k : Nat} (M : Matrix (Fin m) (Fin k) R) : R :=
  ∑ i, ∑ j, M i j * M i j

/-- Source function `norms`: sum over both layers of the squared weights. -/
def norms (nn : NeuralNetwork R I H C) : R :=
  (0 + accuSquare nn.W0) + accuSquare nn.W1

/-- Source function `feedforward` (lines 101-125), returning the cache it
fills. -/
def feedforward (P : Primitives R) (nn : NeuralNetwork R I H C)
    (X : Matrix (Fin I) (Fin n) R) : cache R I H C n :=
  let z1 := nn.W0 * X + repmat nn.b0 n
  let a1 := P.sigmoid z1
  let z2 := nn.W1 * a1 + repmat nn.b1 n
  let a2 := P.softmax z2
  { X := X, z0 := z1, z1 := z2, a0 := a1, a1 := a2, yc := a2 }

/-- Source function `backprop` (lines 134-150).  `N` is the column count of
`y`; `1 - a` is Armadillo's scalar-minus-matrix, taken entry by entry, and `%`
is the entrywise product. -/
def backprop (nn : NeuralNetwork R I H C) (y : Matrix (Fin C) (Fin n) R) (reg : R)
    (bpcache : cache R I H C n) : grads R I H C :=
  let N : R := (n : R)
  let diff : Matrix (Fin C) (Fin n) R := (1 / N) • (bpcache.yc - y)
  let da1 : Matrix (Fin H) (Fin n) R := nn.W1ᵀ * diff
  let dz1 : Matrix (Fin H) (Fin n) R :=
    (da1 ⊙ bpcache.a0) ⊙ (Matrix.of fun i j => 1 - bpcache.a0 i j)
  { dW1 := diff * bpcache.a0ᵀ + reg • nn.W1
    db1 := rowsum diff
    dW0 := dz1 * bpcache.Xᵀ + reg • nn.W0
    db0 := rowsum dz1 }

/-- Source function `loss` (lines 155-165): cross-entropy over the entries
selected by `find(y == 1)`, divided by the column count, plus the
regularisation term. -/
def loss (P : Primitives R) (nn : NeuralNetwork R I H C)
    (yc y : Matrix (Fin C) (Fin n) R) (reg : R) : R :=
  let N : R := (n : R)
  let ce_sum : R := -(∑ j, ∑ i, if y i j = 1 then P.log (yc i j) else 0)
  let data_loss := ce_sum / N
  let reg_loss := (1 / 2) * reg * norms nn
  data_loss + reg_loss

/-- One comparison of Armadillo's `max(index)` scan: the running best value
starts at minus infinity (`none`) with index 0 and is replaced only by a
strictly larger entry. -/
def maxStep {m : Nat} (v : Fin m → R) (acc : Option R × Nat) (i : Fin m) : Option R × Nat :=
  match acc.1 with
  | none => (some (v i), i.val)
  | some best => if best < v i then (some (v i), i.val) else acc

/-- The index stored by the Armadillo call `v.max(row)`. -/
def maxIndex {m : Nat} (v : Fin m → R) : Nat :=
  ((List.finRange m).foldl (maxStep v) (none, 0)).2

/-- Source function `predict` (lines 170-181): entry `i` of `label` is the
index found by `max` in column `i` of `yc`, stored as a `real`. -/
def predict (P : Primitives R) (nn : NeuralNetwork R I H C)
    (X : Matrix (Fin I) (Fin n) R) : Fin n → R :=
  let fcache := feedforward P nn X
  fun i => ((maxIndex fun r => fcache.yc r i : Nat) : R)

/-- Assignment to one matrix entry, `M(j, k) = v`. -/
def setEntry {m k : Nat} (M : Matrix (Fin m) (Fin k) R) (j : Fin m) (l : Fin k) (v : R) :
    Matrix (Fin m) (Fin k) R :=
  fun a b => if a = j ∧ b = l then v else M a b

/-- Assignment to one entry of a column, `b(j) = v`. -/
def setElem {m : Nat} (b : Fin m → R) (j : Fin m) (v : R) : Fin m → R :=
  fun a => if a = j then v else b a

/-- The body shared by the loops of `numgrad` (lines 198-206 and 215-223) for
one scalar parameter, read by `get` and assigned by `set`; `put` stores the
estimate in the matching entry of `numgrads`.  The state is the network, which
the source modifies in place, and the gradients computed so far. -/
def numgradEntry (P : Primitives R) (X : Matrix (Fin I) (Fin n) R)
    (y : Matrix (Fin C) (Fin n) R) (reg : R)
    (get : NeuralNetwork R I H C → R)
    (set : NeuralNetwork R I H C → R → NeuralNetwork R I H C)
    (put : grads R I H C → R → grads R I H C)
    (s : NeuralNetwork R I H C × grads R I H C) : NeuralNetwork R I H C × grads R I H C :=
  let h : R := 1 / 100000
  let oldval := get s.1
  let nn1 := set s.1 (oldval + h)
  let fxph := loss P nn1 (feedforward P nn1 X).yc y reg
  let nn2 := set nn1 (oldval - h)
  let fxnh := loss P nn2 (feedforward P nn2 X).yc y reg
  let numgrads := put s.2 ((fxph - fxnh) / (2 * h))
  let nn3 := set nn2 oldval
  (nn3, numgrads)

/-- Source function `numgrad` (lines 186-226): the four loops over `W[0]`,
`W[1]`, `b[0]`, `b[1]`, in the source's order.  It returns the network as the
call leaves it together with `numgrads` (resized, hence zero, before it is
filled). -/
def numgrad (P : Primitives R) (nn : NeuralNetwork R I H C)
    (X : Matrix (Fin I) (Fin n) R) (y : Matrix (Fin C) (Fin n) R) (reg : R) :
    NeuralNetwork R I H C × grads R I H C :=
  let s0 : NeuralNetwork R I H C × grads R I H C :=
    (nn, { dW0 := 0, dW1 := 0, db0 := 0, db1 := 0 })
  let s1 := (List.finRange H).foldl (fun s j =>
    (List.finRange I).foldl (fun s k =>
      numgradEntry P X y reg (fun m => m.W0 j k)
        (fun m v => { m with W0 := setEntry m.W0 j k v })
        (fun g v => { g with dW0 := setEntry g.dW0 j k v }) s) s) s0
  let s2 := (List.finRange C).foldl (fun s j =>
    (List.finRange H).foldl (fun s k =>
      numgradEntry P X y reg (fun m => m.W1 j k)
        (fun m v => { m with W1 := setEntry m.W1 j k v })
        (fun g v => { g with dW1 := setEntry g.dW1 j k v }) s) s) s1
  let s3 := (List.finRange H).foldl (fun s j =>
    numgradEntry P X y reg (fun m => m.b0 j)
      (fun m v => { m with b0 := setElem m.b0 j v })
      (fun g v => { g with db0 := setElem g.db0 j v }) s) s2
  (List.finRange C).foldl (fun s j =>
    numgradEntry P X y reg (fun m => m.b1 j)
      (fun m v => { m with b1 := setElem m.b1 j v })
      (fun g v => { g with db1 := setElem g.db1 j v }) s) s3

/-- The loss of the forward pass of `m` on the batch: the value `numgrad`
computes after each perturbation. -/
def lossAt (P : Primitives R) (X : Matrix (Fin I) (Fin n) R) (y : Matrix (Fin C) (Fin n) R)
    (reg : R) (m : NeuralNetwork R I H C) : R :=
  loss P m (feedforward P m X).yc y reg

/-- The central difference `numgrad` stores for one parameter: the loss with
that parameter moved to `plus` and to `minus`. -/
def centralDiff (P : Primitives R) (X : Matrix (Fin I) (Fin n) R) (y : Matrix (Fin C) (Fin n) R)
    (reg : R) (plus minus : NeuralNetwork R I H C) : R :=
  (lossAt P X y reg plus - lossAt P X y reg minus) / (2 * (1 / 100000))

/-! ## Sequential trainer -/

/-- The Armadillo call `X.cols(first, last)`: the columns `first` to `last`
inclusive.  Armadillo rejects the call unless `0 ≤ first ≤ last < n_cols`
(see `colsInBounds`); outside that range the value given here is not used. -/
def cols {m N : Nat} (X : Matrix (Fin m) (Fin N) R) (first last : Int) :
    Matrix (Fin m) (Fin (last + 1 - first).toNat) R :=
  fun i j =>
    if hj : (first + (j.val : Int)).toNat < N then X i ⟨(first + (j.val : Int)).toNat, hj⟩
    else 0

/-- The bounds check of `X.cols(first, last)` on a matrix of `N` columns. -/
def colsInBounds (N : Nat) (first last : Int) : Bool :=
  decide (0 ≤ first ∧ first ≤ last ∧ last < (N : Int))

/-- What a run of `train` does that can be observed from outside, in order:
the gradient check (line 256-257), the loss line written to the standard
output (lines 260-262) and the snapshot written by `write_cpudata_tofile`
(line 288), which stores the four tensors under the iteration number. -/
inductive Event (R : Type) (I H C : Nat) where
  | gradcheck (iter : Int)
  | loss (iter epoch : Int) (value : R)
  | snapshot (iter : Int) (nn : NeuralNetwork R I H C)

/-- The variables of `train` that live across batches, with the observable
events so far. -/
structure TrainState (R : Type) (I H C : Nat) where
  nn : NeuralNetwork R I H C
  iter : Int
  print_flag : Int
  out : List (Event R I H C)

/-- Line 240: `(N + batch_size - 1) / batch_size`. -/
def num_batches (N batch_size : Int) : Int :=
  (N + batch_size - 1).tdiv batch_size

/-- Line 243: `std::min((batch + 1) * batch_size - 1, N - 1)`. -/
def last_col (N batch_size batch : Int) : Int :=
  min ((batch + 1) * batch_size - 1) (N - 1)

/-- Lines 253-263 of `train`: at the printing cadence, the optional gradient
check and the loss line.  The result is the network as `numgrad` leaves it and
the events, or `none` when the assertion on `gradcheck` fails and the program
stops. -/
def checkAndReport (P : Primitives R) {k : Nat} (nn : NeuralNetwork R I H C)
    (X_batch : Matrix (Fin I) (Fin k) R) (y_batch : Matrix (Fin C) (Fin k) R) (reg : R)
    (grad_check : Bool) (print_every iter epoch : Int)
    (bpcache : cache R I H C k) (bpgrads : grads R I H C) :
    Option (NeuralNetwork R I H C × List (Event R I H C)) :=
  if 0 < print_every ∧ iter.tmod print_every = 0 then
    if grad_check then
      let r := numgrad P nn X_batch y_batch reg
      if P.gradcheck r.2 bpgrads then
        some (r.1, [Event.gradcheck iter, Event.loss iter epoch (loss P r.1 bpcache.yc y_batch reg)])
      else none
    else some (nn, [Event.loss iter epoch (loss P nn bpcache.yc y_batch reg)])
  else some (nn, [])

/-- Lines 266-272 of `train`: the gradient descent step. -/
def gradientStep (nn : NeuralNetwork R I H C) (learning_rate : R) (bpgrads : grads R I H C) :
    NeuralNetwork R I H C :=
  { W0 := nn.W0 - learning_rate • bpgrads.dW0
    W1 := nn.W1 - learning_rate • bpgrads.dW1
    b0 := nn.b0 - learning_rate • bpgrads.db0
    b1 := nn.b1 - learning_rate • bpgrads.db1 }

/-- Lines 281-285 of `train` (and 368-372 of `parallel_train`): the value
given to `print_flag`. -/
def printFlag (print_every batch iter : Int) : Int :=
  if print_every ≤ 0 then (if batch = 0 then 1 else 0)
  else (if iter.tmod print_every = 0 then 1 else 0)

/-- The body of the batch loop of `train` (lines 243-291). -/
def trainBatch (P : Primitives R) {N : Nat} (X : Matrix (Fin I) (Fin N) R)
    (y : Matrix (Fin C) (Fin N) R) (learning_rate reg : R) (batch_size : Int)
    (grad_check : Bool) (print_every debug : Int) (epoch batch : Int)
    (st : TrainState R I H C) : Option (TrainState R I H C) :=
  let last := last_col N batch_size batch
  if colsInBounds N (batch * batch_size) last then
    let X_batch := cols X (batch * batch_size) last
    let y_batch := cols y (batch * batch_size) last
    let bpcache := feedforward P st.nn X_batch
    let bpgrads := backprop st.nn y_batch reg bpcache
    match checkAndReport P st.nn X_batch y_batch reg grad_check print_every st.iter epoch
        bpcache bpgrads with
    | none => none
    | some (nn1, events) =>
      let nn2 := gradientStep nn1 learning_rate bpgrads
      let flag := printFlag print_every batch st.iter
      let saved : List (Event R I H C) :=
        if debug ≠ 0 ∧ flag ≠ 0 then [Event.snapshot st.iter nn2] else []
      some { nn := nn2, iter := st.iter + 1, print_flag := flag,
             out := st.out ++ events ++ saved }
  else none

/-- The body of the epoch loop of `train` (lines 240-292); a zero
`batch_size` stops the program at the division. -/
def trainEpoch (P : Primitives R) {N : Nat} (X : Matrix (Fin I) (Fin N) R)
    (y : Matrix (Fin C) (Fin N) R) (learning_rate reg : R) (batch_size : Int)
    (grad_check : Bool) (print_every debug : Int) (epoch : Int)
    (st : TrainState R I H C) : Option (TrainState R I H C) :=
  if batch_size = 0 then none
  else
    (List.range (num_batches N batch_size).toNat).foldlM
      (fun s (batch : Nat) => trainBatch P X y learning_rate reg batch_size grad_check
        print_every debug epoch (batch : Int) s) st

/-- Source function `train` (lines 231-294).  The result is the final state,
whose `nn` is the trained network, or `none` when the program stops early. -/
def train (P : Primitives R) {N : Nat} (nn : NeuralNetwork R I H C)
    (X : Matrix (Fin I) (Fin N) R) (y : Matrix (Fin C) (Fin N) R) (learning_rate reg : R)
    (epochs batch_size : Int) (grad_check : Bool) (print_every debug : Int) :
    Option (TrainState R I H C) :=
  (List.range epochs.toNat).foldlM
    (fun s (epoch : Nat) => trainEpoch P X y learning_rate reg batch_size grad_check
      print_every debug (epoch : Int) s)
    { nn := nn, iter := 0, print_flag := 0, out := [] }

/-- The state in which the loop body for batch `batch` of epoch `epoch`
starts: epochs `0 .. epoch-1` have run in full and then batches
`0 .. batch-1` of this epoch. -/
def stateAt (P : Primitives R) {N : Nat} (nn : NeuralNetwork R I H C)
    (X : Matrix (Fin I) (Fin N) R) (y : Matrix (Fin C) (Fin N) R) (learning_rate reg : R)
    (batch_size : Int) (grad_check : Bool) (print_every debug : Int)
    (epoch batch : Nat) : Option (TrainState R I H C) :=
  (train P nn X y learning_rate reg (epoch : Int) batch_size grad_check print_every debug).bind
    fun s => (List.range batch).foldlM
      (fun s (b : Nat) => trainBatch P X y learning_rate reg batch_size grad_check
        print_every debug (epoch : Int) (b : Int) s) s

/-- The iteration numbers of the snapshots in a list of events. -/
def snapshotIters : List (Event R I H C) → List Int
  | [] => []
  | Event.snapshot iter _ :: es => iter :: snapshotIters es
  | _ :: es => snapshotIters es

/-- The iteration numbers of the loss lines in a list of events. -/
def lossIters : List (Event R I H C) → List Int
  | [] => []
  | Event.loss iter _ _ :: es => iter :: lossIters es
  | _ :: es => lossIters es

/-- The iteration numbers of the gradient checks in a list of events. -/
def gradcheckIters : List (Event R I H C) → List Int
  | [] => []
  | Event.gradcheck iter :: es => iter :: gradcheckIters es
  | _ :: es => gradcheckIters es

/-- The condition of line 253: the printing cadence is enabled and the
counter is a multiple of it. -/
def atCadence (print_every iter : Int) : Bool :=
  decide (0 < print_every ∧ iter.tmod print_every = 0)

/-- The assertion of line 257 is reached and fails. -/
def assertFails (P : Primitives R) {k : Nat} (nn : NeuralNetwork R I H C)
    (X_batch : Matrix (Fin I) (Fin k) R) (y_batch : Matrix (Fin C) (Fin k) R) (reg : R)
    (grad_check : Bool) (print_every iter : Int) : Bool :=
  atCadence print_every iter && grad_check &&
    !(P.gradcheck (numgrad P nn X_batch y_batch reg).2
        (backprop nn y_batch reg (feedforward P nn X_batch)))

/-- The events of lines 253-263 in a batch step that passes them: at the
cadence, the gradient check when `grad_check` is set and the loss line. -/
def reportEvents (P : Primitives R) {k : Nat} (nn : NeuralNetwork R I H C)
    (X_batch : Matrix (Fin I) (Fin k) R) (y_batch : Matrix (Fin C) (Fin k) R) (reg : R)
    (grad_check : Bool) (print_every iter epoch : Int) : List (Event R I H C) :=
  if atCadence print_every iter then
    (if grad_check then [Event.gradcheck iter] else []) ++
      [Event.loss iter epoch (loss P nn (feedforward P nn X_batch).yc y_batch reg)]
  else []

/-! ## Divergence record and the parallel trainer -/

/-- The value of a `real` quotient `a / b`: the machine division is not
guarded in the source, so a zero divisor gives an infinite value, or the
undefined value when the dividend is zero too. -/
inductive DivResult (R : Type) where
  | finite (x : R)
  | infinite
  | undefined

/-- The division `a / b` of two `real` values as the source writes it. -/
def realDiv (a b : R) : DivResult R :=
  if b = 0 then (if a = 0 then DivResult.undefined else DivResult.infinite)
  else DivResult.finite (a / b)

/-- The Armadillo call `arma::norm(M, "inf")`: for a single row or column the
largest absolute entry, otherwise the largest absolute row sum; zero for an
empty object. -/
def normInf {m k : Nat} (M : Matrix (Fin m) (Fin k) R) : R :=
  if m = 1 ∨ k = 1 then
    (List.finRange m).foldl
      (fun acc i => (List.finRange k).foldl (fun acc j => max acc |M i j|) acc) 0
  else
    (List.finRange m).foldl (fun acc i => max acc (∑ j, |M i j|)) 0

/-- A bias column as the one-column matrix Armadillo holds. -/
def colMat {m : Nat} (b : Fin m → R) : Matrix (Fin m) (Fin 1) R :=
  fun i _ => b i

/-- The nine values of a row of the file written by `write_diff_gpu_cpu`. -/
structure ErrorRow (R : Type) where
  iter : Int
  max_errW0 : DivResult R
  max_errW1 : DivResult R
  max_errb0 : DivResult R
  max_errb1 : DivResult R
  L2_errW0 : DivResult R
  L2_errW1 : DivResult R
  L2_errb0 : DivResult R
  L2_errb1 : DivResult R

/-- One line of the file written by `write_diff_gpu_cpu`: the line of column
titles or a row of values. -/
inductive ErrorLine (R : Type) where
  | header
  | row (r : ErrorRow R)

/-- Line 57 (and 63, 69, 75): `arma::norm(T - A, "inf") / arma::norm(A, "inf")`. -/
def maxErr {m k : Nat} (T A : Matrix (Fin m) (Fin k) R) : DivResult R :=
  realDiv (normInf (T - A)) (normInf A)

/-- Line 58 (and 64, 70, 76): `arma::norm(T - A, 2) / arma::norm(A, 2)`. -/
def l2Err (P : Primitives R) {m k : Nat} (T A : Matrix (Fin m) (Fin k) R) : DivResult R :=
  realDiv (P.norm2 (T - A)) (P.norm2 A)

/-- Source function `write_diff_gpu_cpu` (lines 50-98): `loaded` holds the four
matrices `A`, `B`, `C`, `D` read from the snapshot files of iteration `iter`;
the result is the lines appended to `error_file`. -/
def write_diff_gpu_cpu (P : Primitives R) (nn : NeuralNetwork R I H C) (iter : Int)
    (loaded : NeuralNetwork R I H C) : List (ErrorLine R) :=
  let max_errW0 := maxErr nn.W0 loaded.W0
  let L2_errW0 := l2Err P nn.W0 loaded.W0
  let max_errW1 := maxErr nn.W1 loaded.W1
  let L2_errW1 := l2Err P nn.W1 loaded.W1
  let max_errb0 := maxErr (colMat nn.b0) (colMat loaded.b0)
  let L2_errb0 := l2Err P (colMat nn.b0) (colMat loaded.b0)
  let max_errb1 := maxErr (colMat nn.b1) (colMat loaded.b1)
  let L2_errb1 := l2Err P (colMat nn.b1) (colMat loaded.b1)
  (if iter = 0 then [ErrorLine.header] else []) ++
    [ErrorLine.row
      { iter := iter, max_errW0 := max_errW0, max_errW1 := max_errW1, max_errb0 := max_errb0,
        max_errb1 := max_errb1, L2_errW0 := L2_errW0, L2_errW1 := L2_errW1,
        L2_errb0 := L2_errb0, L2_errb1 := L2_errb1 }]

/-- The variables of `parallel_train` that live across batches: the host
network `nn`, the counter, the flag and the lines written to `error_file`. -/
structure ParallelState (R : Type) (I H C : Nat) where
  nn : NeuralNetwork R I H C
  iter : Int
  print_flag : Int
  error_file : List (ErrorLine R)

/-- The body of the batch loop of `parallel_train` (lines 356-383) on the
single worker of rank 0.  The device objects built from the batch copy their
arguments; no statement assigns to `nn`.  `files iter` is the content of the
snapshot files of iteration `iter`, `none` when they cannot be read with the
shapes of the network, in which case the subtraction stops the program. -/
def parallelBatch (P : Primitives R) {N : Nat} (files : Int → Option (NeuralNetwork R I H C))
    (X : Matrix (Fin I) (Fin N) R) (y : Matrix (Fin C) (Fin N) R) (batch_size : Int)
    (print_every debug : Int) (batch : Int)
    (st : ParallelState R I H C) : Option (ParallelState R I H C) :=
  let last := last_col N batch_size batch
  if colsInBounds N (batch * batch_size) last then
    let _X_batch := cols X (batch * batch_size) last
    let _y_batch := cols y (batch * batch_size) last
    let flag := printFlag print_every batch st.iter
    if debug ≠ 0 ∧ flag ≠ 0 then
      match files st.iter with
      | none => none
      | some loaded =>
        some { nn := st.nn, iter := st.iter + 1, print_flag := flag,
               error_file := st.error_file ++ write_diff_gpu_cpu P st.nn st.iter loaded }
    else some { nn := st.nn, iter := st.iter + 1, print_flag := flag,
                error_file := st.error_file }
  else none

/-- Source function `parallel_train` (lines 316-394) run by one worker
(rank 0, `num_procs = 1`), for which the broadcast leaves `N = X.n_cols`.
`learning_rate`, `reg` and `grad_check` are accepted and not used, as in the
source. -/
def parallel_train (P : Primitives R) {N : Nat} (files : Int → Option (NeuralNetwork R I H C))
    (nn : NeuralNetwork R I H C) (X : Matrix (Fin I) (Fin N) R) (y : Matrix (Fin C) (Fin N) R)
    (_learning_rate _reg : R) (epochs batch_size : Int) (_grad_check : Bool)
    (print_every debug : Int) : Option (ParallelState R I H C) :=
  (List.range epochs.toNat).foldlM
    (fun s (_epoch : Nat) =>
      if batch_size = 0 then none
      else
        (List.range (num_batches N batch_size).toNat).foldlM
          (fun s (batch : Nat) =>
            parallelBatch P files X y batch_size print_every debug (batch : Int) s) s)
    { nn := nn, iter := 0, print_flag := 0, error_file := [] }

end Engine

/-! ## A concrete instance for running the definitions -/

/-- Rational stand-ins for the absent routines, used only to run the
definitions on examples: a rational squashing function, a column
normalisation of a positive rational weight, `x - 1` for the logarithm, a
comparison that accepts, and the sum of absolute entries for the 2-norm. -/
def ratPrimitives : Primitives ℚ where
  sigmoid := fun M i j => (1 + M i j / (1 + |M i j|)) / 2
  softmax := fun M i j => (1 + |M i j|) / ∑ l, (1 + |M l j|)
  log := fun x => x - 1
  gradcheck := fun _ _ => true
  norm2 := fun M => ∑ i, ∑ j, |M i j|

/-- The network with one unit per layer and the four given parameters. -/
def unitNet (w0 w1 c0 c1 : ℚ) : NeuralNetwork ℚ 1 1 1 where
  W0 := fun _ _ => w0
  W1 := fun _ _ => w1
  b0 := fun _ => c0
  b1 := fun _ => c1

/-- A data matrix with one row and `N` equal entries. -/
def constRow (N : Nat) (x : ℚ) : Matrix (Fin 1) (Fin N) ℚ :=
  fun _ _ => x

/-- A network with one input, one hidden unit and two output rows that
receive the same weights, so that the two outputs tie. -/
def tieNet : NeuralNetwork ℚ 1 1 2 where
  W0 := fun _ _ => 1
  W1 := fun _ _ => 1
  b0 := fun _ => 0
  b1 := fun _ => 0

/-! ## Theorems -/

section EngineTheorems

variable {R : Type} [LinearOrderedField R] {I H C n : Nat}

/-- C1: for a label matrix with `N ≥ 1` columns, every entry of the gradients
returned by `backprop` is given by the stated formulas, written out with
`diff = (a2 - Y)/N` and `dz1 = (W[1]ᵀ·diff) .* a1 .* (1 - a1)`; and the result
is the same for any two caches that agree on `X`, on the hidden activation and
on the output `yc`, whatever their pre-activations `z` are. -/
theorem backprop_formula (nn : NeuralNetwork R I H C) (Y : Matrix (Fin C) (Fin n) R)
    (reg : R) (c : cache R I H C n) (_hN : 1 ≤ n) :
    (∀ i j, (backprop nn Y reg c).dW1 i j
        = (∑ k, ((c.yc i k - Y i k) / (n : R)) * c.a0 j k) + reg * nn.W1 i j) ∧
    (∀ i, (backprop nn Y reg c).db1 i = ∑ k, (c.yc i k - Y i k) / (n : R)) ∧
    (∀ i j, (backprop nn Y reg c).dW0 i j
        = (∑ k, ((∑ l, nn.W1 l i * ((c.yc l k - Y l k) / (n : R)))
              * c.a0 i k * (1 - c.a0 i k)) * c.X j k) + reg * nn.W0 i j) ∧
    (∀ i, (backprop nn Y reg c).db0 i
        = ∑ k, (∑ l, nn.W1 l i * ((c.yc l k - Y l k) / (n : R)))
              * c.a0 i k * (1 - c.a0 i k)) ∧
    (∀ c2 : cache R I H C n, c2.X = c.X → c2.a0 = c.a0 → c2.yc = c.yc →
        backprop nn Y reg c2 = backprop nn Y reg c) := by
  have hdiv : ∀ x : R, (n : R)⁻¹ * x = x / (n : R) := fun x => by
    rw [div_eq_mul_inv, mul_comm]
  refine ⟨?_, ?_, ?_, ?_, ?_⟩
  · intro i j
    simp only [backprop, Matrix.add_apply, Matrix.mul_apply, Matrix.smul_apply,
      Matrix.sub_apply, Matrix.transpose_apply, smul_eq_mul, one_div, hdiv]
  · intro i
    simp only [backprop, rowsum, Matrix.smul_apply, Matrix.sub_apply, smul_eq_mul,
      one_div, hdiv]
  · intro i j
    simp only [backprop, Matrix.add_apply, Matrix.mul_apply, Matrix.smul_apply,
      Matrix.sub_apply, Matrix.transpose_apply, Matrix.hadamard_apply, Matrix.of_apply,
      smul_eq_mul, one_div, hdiv]
  · intro i
    simp only [backprop, rowsum, Matrix.mul_apply, Matrix.smul_apply,
      Matrix.sub_apply, Matrix.transpose_apply, Matrix.hadamard_apply, Matrix.of_apply,
      smul_eq_mul, one_div, hdiv]
  · intro c2 hX ha hy
    simp only [backprop, hX, ha, hy]

/-- The scan of `maxStep` from a state that already holds a best value `b`:
either nothing in `l` beats `b`, or the result is the first largest entry of
`l`, which beats `b`. -/
theorem maxStep_foldl_some {m : Nat} (v : Fin m → R) :
    ∀ (l : List (Fin m)), l.Pairwise (· < ·) → ∀ (b : R) (k0 : Nat),
      ((l.foldl (maxStep v) (some b, k0) = (some b, k0)) ∧ ∀ r ∈ l, v r ≤ b) ∨
      (∃ k ∈ l, l.foldl (maxStep v) (some b, k0) = (some (v k), k.val) ∧ b < v k ∧
        (∀ r ∈ l, v r ≤ v k) ∧ (∀ r ∈ l, r < k → v r < v k)) := by
  intro l
  induction l with
  | nil => intro _ b k0; left; simp
  | cons a l ih =>
    intro hl b k0
    rw [List.pairwise_cons] at hl
    obtain ⟨ha, hl⟩ := hl
    by_cases hlt : b < v a
    · have hstep : maxStep v (some b, k0) a = (some (v a), a.val) := by
        simp [maxStep, hlt]
      rw [List.foldl_cons, hstep]
      right
      rcases ih hl (v a) a.val with ⟨heq, hle⟩ | ⟨k, hk, heq, hgt, hle, hfirst⟩
      · refine ⟨a, List.mem_cons_self _ _, heq, hlt, ?_, ?_⟩
        · intro r hr
          rcases List.mem_cons.1 hr with rfl | hr
          · exact le_rfl
          · exact hle r hr
        · intro r hr hra
          rcases List.mem_cons.1 hr with rfl | hr
          · exact absurd hra (lt_irrefl _)
          · exact absurd hra (lt_asymm (ha r hr))
      · refine ⟨k, List.mem_cons_of_mem _ hk, heq, lt_trans hlt hgt, ?_, ?_⟩
        · intro r hr
          rcases List.mem_cons.1 hr with rfl | hr
          · exact le_of_lt hgt
          · exact hle r hr
        · intro r hr hrk
          rcases List.mem_cons.1 hr with rfl | hr
          · exact hgt
          · exact hfirst r hr hrk
    · have hstep : maxStep v (some b, k0) a = (some b, k0) := by
        simp [maxStep, hlt]
      rw [List.foldl_cons, hstep]
      rcases ih hl b k0 with ⟨heq, hle⟩ | ⟨k, hk, heq, hgt, hle, hfirst⟩
      · left
        refine ⟨heq, ?_⟩
        intro r hr
        rcases List.mem_cons.1 hr with rfl | hr
        · exact not_lt.1 hlt
        · exact hle r hr
      · right
        refine ⟨k, List.mem_cons_of_mem _ hk, heq, hgt, ?_, ?_⟩
        · intro r hr
          rcases List.mem_cons.1 hr with rfl | hr
          · exact le_of_lt (lt_of_le_of_lt (not_lt.1 hlt) hgt)
          · exact hle r hr
        · intro r hr hrk
          rcases List.mem_cons.1 hr with rfl | hr
          · exact lt_of_le_of_lt (not_lt.1 hlt) hgt
          · exact hfirst r hr hrk

/-- On a non-empty column `maxIndex` is the index of the first largest
entry. -/
theorem maxIndex_first_max {m : Nat} (v : Fin m → R) (hm : 0 < m) :
    ∃ k : Fin m, maxIndex v = k.val ∧ (∀ r, v r ≤ v k) ∧ (∀ r, r < k → v r < v k) := by
  have hpw : (List.finRange m).Pairwise (· < ·) := List.pairwise_lt_finRange m
  have hmem : ∀ r : Fin m, r ∈ List.finRange m := List.mem_finRange
  cases hfr : List.finRange m with
  | nil =>
    have := hmem ⟨0, hm⟩
    rw [hfr] at this
    exact absurd this (List.not_mem_nil _)
  | cons a l =>
    rw [hfr, List.pairwise_cons] at hpw
    obtain ⟨ha, hl⟩ := hpw
    have hstep : maxStep v (none, 0) a = (some (v a), a.val) := by simp [maxStep]
    have hmem2 : ∀ r : Fin m, r = a ∨ r ∈ l := fun r => by
      have := hmem r
      rw [hfr] at this
      exact List.mem_cons.1 this
    unfold maxIndex
    rw [hfr, List.foldl_cons, hstep]
    rcases maxStep_foldl_some v l hl (v a) a.val with ⟨heq, hle⟩ | ⟨k, hk, heq, hgt, hle, hfirst⟩
    · refine ⟨a, by rw [heq], ?_, ?_⟩
      · intro r
        rcases hmem2 r with rfl | hr
        · exact le_rfl
        · exact hle r hr
      · intro r hra
        rcases hmem2 r with rfl | hr
        · exact absurd hra (lt_irrefl _)
        · exact absurd hra (lt_asymm (ha r hr))
    · refine ⟨k, by rw [heq], ?_, ?_⟩
      · intro r
        rcases hmem2 r with rfl | hr
        · exact le_of_lt hgt
        · exact hle r hr
      · intro r hrk
        rcases hmem2 r with rfl | hr
        · exact hgt
        · exact hfirst r hr hrk

/-- C6: `predict` returns one label per column of `X` (the result is indexed by
the columns), and for a network with at least one output row the label of
column `i` is the row index of the largest entry of column `i` of the output
`a2 = yc` of `feedforward`, the lowest such index when several rows hold it. -/
theorem predict_first_max (P : Primitives R) (nn : NeuralNetwork R I H C)
    (X : Matrix (Fin I) (Fin n) R) (hC : 0 < C) (i : Fin n) :
    ∃ k : Fin C, predict P nn X i = ((k.val : Nat) : R) ∧
      (∀ r, (feedforward P nn X).yc r i ≤ (feedforward P nn X).yc k i) ∧
      (∀ r, r < k → (feedforward P nn X).yc r i < (feedforward P nn X).yc k i) := by
  obtain ⟨k, hk, hmax, hfirst⟩ := maxIndex_first_max (fun r => (feedforward P nn X).yc r i) hC
  exact ⟨k, by simp only [predict, hk], hmax, hfirst⟩

theorem setEntry_setEntry {m k : Nat} (M : Matrix (Fin m) (Fin k) R) (j : Fin m) (l : Fin k)
    (v w : R) : setEntry (setEntry M j l v) j l w = setEntry M j l w := by
  funext a b
  simp only [setEntry]
  split_ifs <;> rfl

theorem setEntry_self {m k : Nat} (M : Matrix (Fin m) (Fin k) R) (j : Fin m) (l : Fin k) :
    setEntry M j l (M j l) = M := by
  funext a b
  simp only [setEntry]
  split_ifs with h
  · rw [h.1, h.2]
  · rfl

theorem setElem_setElem {m : Nat} (b : Fin m → R) (j : Fin m) (v w : R) :
    setElem (setElem b j v) j w = setElem b j w := by
  funext a
  simp only [setElem]
  split_ifs <;> rfl

theorem setElem_self {m : Nat} (b : Fin m → R) (j : Fin m) : setElem b j (b j) = b := by
  funext a
  simp only [setElem]
  split_ifs with h
  · rw [h]
  · rfl

/-- When `set` overwrites the entry `get` reads, one round of `numgradEntry`
gives the network back and stores the central difference of the loss taken at
the network it started from. -/
theorem numgradEntry_eq (P : Primitives R) (X : Matrix (Fin I) (Fin n) R)
    (y : Matrix (Fin C) (Fin n) R) (reg : R)
    (get : NeuralNetwork R I H C → R)
    (set : NeuralNetwork R I H C → R → NeuralNetwork R I H C)
    (put : grads R I H C → R → grads R I H C)
    (hss : ∀ m a b, set (set m a) b = set m b) (hsg : ∀ m, set m (get m) = m)
    (nn : NeuralNetwork R I H C) (g : grads R I H C) :
    numgradEntry P X y reg get set put (nn, g)
      = (nn, put g (centralDiff P X y reg (set nn (get nn + 1 / 100000))
          (set nn (get nn - 1 / 100000)))) := by
  simp only [numgradEntry, centralDiff, lossAt, hss, hsg]

/-- A loop whose body leaves the network alone leaves it alone. -/
theorem foldl_frame {ι : Type} (nn : NeuralNetwork R I H C)
    (step : (NeuralNetwork R I H C × grads R I H C) → ι →
      (NeuralNetwork R I H C × grads R I H C))
    (f : grads R I H C → ι → grads R I H C)
    (hstep : ∀ g i, step (nn, g) i = (nn, f g i)) :
    ∀ (l : List ι) (g : grads R I H C), l.foldl step (nn, g) = (nn, l.foldl f g) := by
  intro l
  induction l with
  | nil => intro g; rfl
  | cons a l ih => intro g; rw [List.foldl_cons, hstep, ih, List.foldl_cons]

/-- Filling the entries `(j, k)`, `k ∈ l`, of a matrix. -/
theorem foldl_setEntry_row {m k : Nat} (val : Fin m → Fin k → R) (j : Fin m) :
    ∀ (l : List (Fin k)) (M : Matrix (Fin m) (Fin k) R),
      l.foldl (fun M b => setEntry M j b (val j b)) M
        = fun a b => if a = j ∧ b ∈ l then val a b else M a b := by
  intro l
  induction l with
  | nil => intro M; funext a b; simp
  | cons c l ih =>
    intro M
    rw [List.foldl_cons, ih]
    funext a b
    simp only [setEntry, List.mem_cons]
    by_cases h1 : a = j <;> by_cases h2 : b ∈ l <;> by_cases h3 : b = c <;> simp [h1, h2, h3]

/-- Filling the entries `(j, k)`, `j ∈ lj`, `k ∈ lk`, of a matrix. -/
theorem foldl_setEntry_all {m k : Nat} (val : Fin m → Fin k → R) (lk : List (Fin k)) :
    ∀ (lj : List (Fin m)) (M : Matrix (Fin m) (Fin k) R),
      lj.foldl (fun M j => lk.foldl (fun M b => setEntry M j b (val j b)) M) M
        = fun a b => if a ∈ lj ∧ b ∈ lk then val a b else M a b := by
  intro lj
  induction lj with
  | nil => intro M; funext a b; simp
  | cons c lj ih =>
    intro M
    rw [List.foldl_cons, ih, foldl_setEntry_row]
    funext a b
    simp only [List.mem_cons]
    by_cases h1 : a = c <;> by_cases h2 : a ∈ lj <;> by_cases h3 : b ∈ lk <;> simp [h1, h2, h3]

/-- Filling the entries `j ∈ l` of a column. -/
theorem foldl_setElem_all {m : Nat} (val : Fin m → R) :
    ∀ (l : List (Fin m)) (b : Fin m → R),
      l.foldl (fun b j => setElem b j (val j)) b = fun a => if a ∈ l then val a else b a := by
  intro l
  induction l with
  | nil => intro b; funext a; simp
  | cons c l ih =>
    intro b
    rw [List.foldl_cons, ih]
    funext a
    simp only [setElem, List.mem_cons]
    by_cases h1 : a = c <;> by_cases h2 : a ∈ l <;> simp [h1, h2]


theorem foldl_dW0 {ι : Type} (F : Matrix (Fin H) (Fin I) R → ι → Matrix (Fin H) (Fin I) R) :
    ∀ (l : List ι) (g : grads R I H C),
      l.foldl (fun g i => { g with dW0 := F g.dW0 i }) g = { g with dW0 := l.foldl F g.dW0 } := by
  intro l
  induction l with
  | nil => intro g; rfl
  | cons a l ih => intro g; rw [List.foldl_cons, ih, List.foldl_cons]

theorem foldl_dW1 {ι : Type} (F : Matrix (Fin C) (Fin H) R → ι → Matrix (Fin C) (Fin H) R) :
    ∀ (l : List ι) (g : grads R I H C),
      l.foldl (fun g i => { g with dW1 := F g.dW1 i }) g = { g with dW1 := l.foldl F g.dW1 } := by
  intro l
  induction l with
  | nil => intro g; rfl
  | cons a l ih => intro g; rw [List.foldl_cons, ih, List.foldl_cons]

theorem foldl_db0 {ι : Type} (F : (Fin H → R) → ι → (Fin H → R)) :
    ∀ (l : List ι) (g : grads R I H C),
      l.foldl (fun g i => { g with db0 := F g.db0 i }) g = { g with db0 := l.foldl F g.db0 } := by
  intro l
  induction l with
  | nil => intro g; rfl
  | cons a l ih => intro g; rw [List.foldl_cons, ih, List.foldl_cons]

theorem foldl_db1 {ι : Type} (F : (Fin C → R) → ι → (Fin C → R)) :
    ∀ (l : List ι) (g : grads R I H C),
      l.foldl (fun g i => { g with db1 := F g.db1 i }) g = { g with db1 := l.foldl F g.db1 } := by
  intro l
  induction l with
  | nil => intro g; rfl
  | cons a l ih => intro g; rw [List.foldl_cons, ih, List.foldl_cons]

/-- The two nested loops over a weight gradient fill every entry. -/
theorem foldl_fill_dW0 (V : Fin H → Fin I → R) (g : grads R I H C) :
    (List.finRange H).foldl (fun g j => (List.finRange I).foldl
      (fun g k => { g with dW0 := setEntry g.dW0 j k (V j k) }) g) g
      = { g with dW0 := V } := by
  have inner : ∀ (j : Fin H) (g : grads R I H C),
      (List.finRange I).foldl (fun g k => { g with dW0 := setEntry g.dW0 j k (V j k) }) g
        = { g with dW0 := (List.finRange I).foldl (fun M k => setEntry M j k (V j k)) g.dW0 } :=
    fun j g => foldl_dW0 (fun M k => setEntry M j k (V j k)) _ g
  simp only [inner]
  rw [foldl_dW0 (fun M j => (List.finRange I).foldl (fun M k => setEntry M j k (V j k)) M),
    foldl_setEntry_all]
  simp only [List.mem_finRange, and_self, if_true]

theorem foldl_fill_dW1 (V : Fin C → Fin H → R) (g : grads R I H C) :
    (List.finRange C).foldl (fun g j => (List.finRange H).foldl
      (fun g k => { g with dW1 := setEntry g.dW1 j k (V j k) }) g) g
      = { g with dW1 := V } := by
  have inner : ∀ (j : Fin C) (g : grads R I H C),
      (List.finRange H).foldl (fun g k => { g with dW1 := setEntry g.dW1 j k (V j k) }) g
        = { g with dW1 := (List.finRange H).foldl (fun M k => setEntry M j k (V j k)) g.dW1 } :=
    fun j g => foldl_dW1 (fun M k => setEntry M j k (V j k)) _ g
  simp only [inner]
  rw [foldl_dW1 (fun M j => (List.finRange H).foldl (fun M k => setEntry M j k (V j k)) M),
    foldl_setEntry_all]
  simp only [List.mem_finRange, and_self, if_true]

theorem foldl_fill_db0 (V : Fin H → R) (g : grads R I H C) :
    (List.finRange H).foldl (fun g j => { g with db0 := setElem g.db0 j (V j) }) g
      = { g with db0 := V } := by
  rw [foldl_db0 (fun b j => setElem b j (V j)), foldl_setElem_all]
  simp only [List.mem_finRange, if_true]

theorem foldl_fill_db1 (V : Fin C → R) (g : grads R I H C) :
    (List.finRange C).foldl (fun g j => { g with db1 := setElem g.db1 j (V j) }) g
      = { g with db1 := V } := by
  rw [foldl_db1 (fun b j => setElem b j (V j)), foldl_setElem_all]
  simp only [List.mem_finRange, if_true]

/-- The result of `numgrad` in closed form: the network it was given and the
central differences taken at that network. -/
theorem numgrad_eq (P : Primitives R) (nn : NeuralNetwork R I H C)
    (X : Matrix (Fin I) (Fin n) R) (y : Matrix (Fin C) (Fin n) R) (reg : R) :
    numgrad P nn X y reg = (nn,
      { dW0 := fun j k => centralDiff P X y reg
          { nn with W0 := setEntry nn.W0 j k (nn.W0 j k + 1 / 100000) }
          { nn with W0 := setEntry nn.W0 j k (nn.W0 j k - 1 / 100000) }
        dW1 := fun j k => centralDiff P X y reg
          { nn with W1 := setEntry nn.W1 j k (nn.W1 j k + 1 / 100000) }
          { nn with W1 := setEntry nn.W1 j k (nn.W1 j k - 1 / 100000) }
        db0 := fun j => centralDiff P X y reg
          { nn with b0 := setElem nn.b0 j (nn.b0 j + 1 / 100000) }
          { nn with b0 := setElem nn.b0 j (nn.b0 j - 1 / 100000) }
        db1 := fun j => centralDiff P X y reg
          { nn with b1 := setElem nn.b1 j (nn.b1 j + 1 / 100000) }
          { nn with b1 := setElem nn.b1 j (nn.b1 j - 1 / 100000) } }) := by
  have e0 : ∀ (j : Fin H) (k : Fin I) (g : grads R I H C),
      numgradEntry P X y reg (fun m => m.W0 j k)
        (fun m v => { m with W0 := setEntry m.W0 j k v })
        (fun g v => { g with dW0 := setEntry g.dW0 j k v }) (nn, g) = _ :=
    fun j k g => numgradEntry_eq P X y reg _ _ _
      (fun m a b => by simp only [setEntry_setEntry])
      (fun m => by simp only [setEntry_self]) nn g
  have e1 : ∀ (j : Fin C) (k : Fin H) (g : grads R I H C),
      numgradEntry P X y reg (fun m => m.W1 j k)
        (fun m v => { m with W1 := setEntry m.W1 j k v })
        (fun g v => { g with dW1 := setEntry g.dW1 j k v }) (nn, g) = _ :=
    fun j k g => numgradEntry_eq P X y reg _ _ _
      (fun m a b => by simp only [setEntry_setEntry])
      (fun m => by simp only [setEntry_self]) nn g
  have e2 : ∀ (j : Fin H) (g : grads R I H C),
      numgradEntry P X y reg (fun m => m.b0 j)
        (fun m v => { m with b0 := setElem m.b0 j v })
        (fun g v => { g with db0 := setElem g.db0 j v }) (nn, g) = _ :=
    fun j g => numgradEntry_eq P X y reg _ _ _
      (fun m a b => by simp only [setElem_setElem])
      (fun m => by simp only [setElem_self]) nn g
  have e3 : ∀ (j : Fin C) (g : grads R I H C),
      numgradEntry P X y reg (fun m => m.b1 j)
        (fun m v => { m with b1 := setElem m.b1 j v })
        (fun g v => { g with db1 := setElem g.db1 j v }) (nn, g) = _ :=
    fun j g => numgradEntry_eq P X y reg _ _ _
      (fun m a b => by simp only [setElem_setElem])
      (fun m => by simp only [setElem_self]) nn g
  have s0 : ∀ g : grads R I H C,
      (List.finRange H).foldl (fun s j =>
        (List.finRange I).foldl (fun s k =>
          numgradEntry P X y reg (fun m => m.W0 j k)
            (fun m v => { m with W0 := setEntry m.W0 j k v })
            (fun g v => { g with dW0 := setEntry g.dW0 j k v }) s) s) (nn, g) = _ :=
    fun g => (foldl_frame nn _ _
      (fun g j => foldl_frame nn _ _ (fun g k => e0 j k g) _ _) _ _).trans
      (congrArg (Prod.mk nn) (foldl_fill_dW0 _ g))
  have s1 : ∀ g : grads R I H C,
      (List.finRange C).foldl (fun s j =>
        (List.finRange H).foldl (fun s k =>
          numgradEntry P X y reg (fun m => m.W1 j k)
            (fun m v => { m with W1 := setEntry m.W1 j k v })
            (fun g v => { g with dW1 := setEntry g.dW1 j k v }) s) s) (nn, g) = _ :=
    fun g => (foldl_frame nn _ _
      (fun g j => foldl_frame nn _ _ (fun g k => e1 j k g) _ _) _ _).trans
      (congrArg (Prod.mk nn) (foldl_fill_dW1 _ g))
  have s2 : ∀ g : grads R I H C,
      (List.finRange H).foldl (fun s j =>
        numgradEntry P X y reg (fun m => m.b0 j)
          (fun m v => { m with b0 := setElem m.b0 j v })
          (fun g v => { g with db0 := setElem g.db0 j v }) s) (nn, g) = _ :=
    fun g => (foldl_frame nn _ _ (fun g j => e2 j g) _ _).trans
      (congrArg (Prod.mk nn) (foldl_fill_db0 _ g))
  have s3 : ∀ g : grads R I H C,
      (List.finRange C).foldl (fun s j =>
        numgradEntry P X y reg (fun m => m.b1 j)
          (fun m v => { m with b1 := setElem m.b1 j v })
          (fun g v => { g with db1 := setElem g.db1 j v }) s) (nn, g) = _ :=
    fun g => (foldl_frame nn _ _ (fun g j => e3 j g) _ _).trans
      (congrArg (Prod.mk nn) (foldl_fill_db1 _ g))
  unfold numgrad
  simp only [s0, s1, s2, s3]

/-- C10: `numgrad` leaves the model unchanged: the network it leaves is the
network it was given, every round of its loops restores the entry it perturbed
before the next round starts, and therefore each estimate it stores is the
central difference of the loss at the given network with that single entry
moved by `+h` and `-h` (`h = 1/100000`) and every other entry at its original
value. -/
theorem numgrad_leaves_model (P : Primitives R) (nn : NeuralNetwork R I H C)
    (X : Matrix (Fin I) (Fin n) R) (y : Matrix (Fin C) (Fin n) R) (reg : R) :
    (numgrad P nn X y reg).1 = nn ∧
    (∀ (m : NeuralNetwork R I H C) (g : grads R I H C),
      (∀ j k, (numgradEntry P X y reg (fun m => m.W0 j k)
          (fun m v => { m with W0 := setEntry m.W0 j k v })
          (fun g v => { g with dW0 := setEntry g.dW0 j k v }) (m, g)).1 = m) ∧
      (∀ j k, (numgradEntry P X y reg (fun m => m.W1 j k)
          (fun m v => { m with W1 := setEntry m.W1 j k v })
          (fun g v => { g with dW1 := setEntry g.dW1 j k v }) (m, g)).1 = m) ∧
      (∀ j, (numgradEntry P X y reg (fun m => m.b0 j)
          (fun m v => { m with b0 := setElem m.b0 j v })
          (fun g v => { g with db0 := setElem g.db0 j v }) (m, g)).1 = m) ∧
      (∀ j, (numgradEntry P X y reg (fun m => m.b1 j)
          (fun m v => { m with b1 := setElem m.b1 j v })
          (fun g v => { g with db1 := setElem g.db1 j v }) (m, g)).1 = m)) ∧
    (∀ j k, (numgrad P nn X y reg).2.dW0 j k =
      (lossAt P X y reg { nn with W0 := setEntry nn.W0 j k (nn.W0 j k + 1 / 100000) }
        - lossAt P X y reg { nn with W0 := setEntry nn.W0 j k (nn.W0 j k - 1 / 100000) })
        / (2 * (1 / 100000))) ∧
    (∀ j k, (numgrad P nn X y reg).2.dW1 j k =
      (lossAt P X y reg { nn with W1 := setEntry nn.W1 j k (nn.W1 j k + 1 / 100000) }
        - lossAt P X y reg { nn with W1 := setEntry nn.W1 j k (nn.W1 j k - 1 / 100000) })
        / (2 * (1 / 100000))) ∧
    (∀ j, (numgrad P nn X y reg).2.db0 j =
      (lossAt P X y reg { nn with b0 := setElem nn.b0 j (nn.b0 j + 1 / 100000) }
        - lossAt P X y reg { nn with b0 := setElem nn.b0 j (nn.b0 j - 1 / 100000) })
        / (2 * (1 / 100000))) ∧
    (∀ j, (numgrad P nn X y reg).2.db1 j =
      (lossAt P X y reg { nn with b1 := setElem nn.b1 j (nn.b1 j + 1 / 100000) }
        - lossAt P X y reg { nn with b1 := setElem nn.b1 j (nn.b1 j - 1 / 100000) })
        / (2 * (1 / 100000))) := by
  refine ⟨by rw [numgrad_eq], ?_, ?_, ?_, ?_, ?_⟩
  · intro m g
    refine ⟨?_, ?_, ?_, ?_⟩
    · intro j k
      rw [numgradEntry_eq P X y reg _ _ _ (fun m a b => by simp only [setEntry_setEntry])
        (fun m => by simp only [setEntry_self])]
    · intro j k
      rw [numgradEntry_eq P X y reg _ _ _ (fun m a b => by simp only [setEntry_setEntry])
        (fun m => by simp only [setEntry_self])]
    · intro j
      rw [numgradEntry_eq P X y reg _ _ _ (fun m a b => by simp only [setElem_setElem])
        (fun m => by simp only [setElem_self])]
    · intro j
      rw [numgradEntry_eq P X y reg _ _ _ (fun m a b => by simp only [setElem_setElem])
        (fun m => by simp only [setElem_self])]
  · intro j k
    rw [numgrad_eq]
    rfl
  · intro j k
    rw [numgrad_eq]
    rfl
  · intro j
    rw [numgrad_eq]
    rfl
  · intro j
    rw [numgrad_eq]
    rfl

/-- For positive arguments `num_batches` is the ceiling of `N / batch_size`:
the batches before the last do not reach `N`, all of them do. -/
theorem num_batches_bounds (N batch_size : Int) (hN : 1 ≤ N) (hb : 1 ≤ batch_size) :
    (num_batches N batch_size - 1) * batch_size < N ∧
      N ≤ num_batches N batch_size * batch_size ∧ 1 ≤ num_batches N batch_size := by
  have hnn : 0 ≤ N + batch_size - 1 := by omega
  have hq : num_batches N batch_size = (N + batch_size - 1) / batch_size := by
    unfold num_batches
    exact Int.tdiv_eq_ediv hnn (by omega)
  have h1 := Int.emod_add_ediv (N + batch_size - 1) batch_size
  have h2 := Int.emod_nonneg (N + batch_size - 1) (show batch_size ≠ 0 by omega)
  have h3 := Int.emod_lt_of_pos (N + batch_size - 1) (show 0 < batch_size by omega)
  rw [← hq] at h1
  have h4 : (num_batches N batch_size - 1) * batch_size < N := by nlinarith
  have h5 : N ≤ num_batches N batch_size * batch_size := by nlinarith
  refine ⟨h4, h5, ?_⟩
  by_contra hlt
  have : num_batches N batch_size ≤ 0 := by omega
  nlinarith


/-- The column range of batch `k`: it starts at `k * batch_size`, is not empty,
lies in `[0, N-1]`, has `batch_size` columns when it is not the last batch and
ends at `N - 1` when it is. -/
theorem batch_range (N batch_size : Int) (hN : 1 ≤ N) (hb : 1 ≤ batch_size)
    (k : Int) (hk0 : 0 ≤ k) (hk : k < num_batches N batch_size) :
    0 ≤ k * batch_size ∧ k * batch_size ≤ last_col N batch_size k ∧
      last_col N batch_size k ≤ N - 1 ∧
      (k + 1 < num_batches N batch_size →
        last_col N batch_size k = (k + 1) * batch_size - 1) ∧
      (k + 1 = num_batches N batch_size → last_col N batch_size k = N - 1) := by
  obtain ⟨h1, h2, _⟩ := num_batches_bounds N batch_size hN hb
  have hkb : k * batch_size ≤ (num_batches N batch_size - 1) * batch_size :=
    mul_le_mul_of_nonneg_right (by omega) (by omega)
  have hpos : 0 ≤ k * batch_size := mul_nonneg hk0 (by omega)
  unfold last_col
  refine ⟨hpos, ?_, min_le_right _ _, ?_, ?_⟩
  · apply le_min
    · nlinarith
    · omega
  · intro hlt
    apply min_eq_left
    have : (k + 1) * batch_size ≤ (num_batches N batch_size - 1) * batch_size :=
      mul_le_mul_of_nonneg_right (by omega) (by omega)
    omega
  · intro heq
    apply min_eq_right
    rw [heq]
    omega

/-- Every column of `[0, N-1]` lies in the range of exactly one batch. -/
theorem batch_partition (N batch_size : Int) (hN : 1 ≤ N) (hb : 1 ≤ batch_size)
    (c : Int) (hc0 : 0 ≤ c) (hc : c ≤ N - 1) :
    ∃! k : Int, 0 ≤ k ∧ k < num_batches N batch_size ∧
      k * batch_size ≤ c ∧ c ≤ last_col N batch_size k := by
  obtain ⟨h1, h2, _⟩ := num_batches_bounds N batch_size hN hb
  have e1 := Int.emod_add_ediv c batch_size
  have e2 := Int.emod_nonneg c (show batch_size ≠ 0 by omega)
  have e3 := Int.emod_lt_of_pos c (show 0 < batch_size by omega)
  have hq0 : 0 ≤ c / batch_size := Int.ediv_nonneg hc0 (by omega)
  refine ⟨c / batch_size, ⟨hq0, ?_, ?_, ?_⟩, ?_⟩
  · by_contra hge
    have : num_batches N batch_size * batch_size ≤ c / batch_size * batch_size :=
      mul_le_mul_of_nonneg_right (by omega) (by omega)
    nlinarith
  · nlinarith
  · unfold last_col
    apply le_min
    · nlinarith
    · exact hc
  · rintro k ⟨hk0, hk, hlo, hhi⟩
    have hhi2 : c ≤ (k + 1) * batch_size - 1 := le_trans hhi (min_le_left _ _)
    rcases lt_trichotomy k (c / batch_size) with hlt | heq | hgt
    · have : (k + 1) * batch_size ≤ c / batch_size * batch_size :=
        mul_le_mul_of_nonneg_right (by omega) (by omega)
      nlinarith
    · exact heq
    · have : (c / batch_size + 1) * batch_size ≤ k * batch_size :=
        mul_le_mul_of_nonneg_right (by omega) (by omega)
      nlinarith

/-- For positive arguments `num_batches` is the rational ceiling. -/
theorem num_batches_eq_ceil (N batch_size : Int) (hN : 1 ≤ N) (hb : 1 ≤ batch_size) :
    Int.ceil ((N : ℚ) / (batch_size : ℚ)) = num_batches N batch_size := by
  obtain ⟨h1, h2, _⟩ := num_batches_bounds N batch_size hN hb
  have hbq : (0 : ℚ) < (batch_size : ℚ) := by exact_mod_cast (show 0 < batch_size by omega)
  rw [Int.ceil_eq_iff]
  constructor
  · rw [lt_div_iff₀ hbq]
    exact_mod_cast h1
  · rw [div_le_iff₀ hbq]
    exact_mod_cast h2

/-- The network `numgrad` leaves is the one it was given. -/
theorem numgrad_fst (P : Primitives R) (nn : NeuralNetwork R I H C)
    (X : Matrix (Fin I) (Fin n) R) (y : Matrix (Fin C) (Fin n) R) (reg : R) :
    (numgrad P nn X y reg).1 = nn := by
  rw [numgrad_eq]

/-- Lines 253-263 in closed form: the network is handed on unchanged, and the
step stops exactly when the assertion fails. -/
theorem checkAndReport_eq (P : Primitives R) {k : Nat} (nn : NeuralNetwork R I H C)
    (X_batch : Matrix (Fin I) (Fin k) R) (y_batch : Matrix (Fin C) (Fin k) R) (reg : R)
    (grad_check : Bool) (print_every iter epoch : Int) :
    checkAndReport P nn X_batch y_batch reg grad_check print_every iter epoch
        (feedforward P nn X_batch) (backprop nn y_batch reg (feedforward P nn X_batch))
      = if assertFails P nn X_batch y_batch reg grad_check print_every iter then none
        else some (nn, reportEvents P nn X_batch y_batch reg grad_check print_every iter epoch) := by
  unfold checkAndReport assertFails reportEvents atCadence
  by_cases hc : 0 < print_every ∧ iter.tmod print_every = 0
  · cases grad_check
    · simp [hc]
    · cases hg : P.gradcheck (numgrad P nn X_batch y_batch reg).2
          (backprop nn y_batch reg (feedforward P nn X_batch))
      · simp [hc, hg]
      · simp [hc, hg, numgrad_fst]
  · simp [hc]

/-- The body of the batch loop in closed form, for a batch whose column range
passes the bounds check. -/
theorem trainBatch_eq (P : Primitives R) {N : Nat} (X : Matrix (Fin I) (Fin N) R)
    (y : Matrix (Fin C) (Fin N) R) (learning_rate reg : R) (batch_size : Int)
    (grad_check : Bool) (print_every debug : Int) (epoch batch : Int)
    (st : TrainState R I H C)
    (hb : colsInBounds N (batch * batch_size) (last_col N batch_size batch) = true) :
    trainBatch P X y learning_rate reg batch_size grad_check print_every debug epoch batch st
      = if assertFails P st.nn (cols X (batch * batch_size) (last_col N batch_size batch))
            (cols y (batch * batch_size) (last_col N batch_size batch)) reg grad_check
            print_every st.iter then none
        else some
          { nn := gradientStep st.nn learning_rate
              (backprop st.nn (cols y (batch * batch_size) (last_col N batch_size batch)) reg
                (feedforward P st.nn (cols X (batch * batch_size) (last_col N batch_size batch))))
            iter := st.iter + 1
            print_flag := printFlag print_every batch st.iter
            out := st.out ++
              reportEvents P st.nn (cols X (batch * batch_size) (last_col N batch_size batch))
                (cols y (batch * batch_size) (last_col N batch_size batch)) reg grad_check
                print_every st.iter epoch ++
              (if debug ≠ 0 ∧ printFlag print_every batch st.iter ≠ 0 then
                [Event.snapshot st.iter (gradientStep st.nn learning_rate
                  (backprop st.nn (cols y (batch * batch_size) (last_col N batch_size batch)) reg
                    (feedforward P st.nn
                      (cols X (batch * batch_size) (last_col N batch_size batch)))))]
              else []) } := by
  unfold trainBatch
  simp only [hb, if_true]
  rw [checkAndReport_eq]
  split_ifs <;> rfl


/-- Invariant rule for a counted loop that may stop: what holds at the start
and is kept by every round that completes holds when the loop completes. -/
theorem foldlM_range_inv {σ : Type} (f : σ → Nat → Option σ) (Inv : Nat → σ → Prop) :
    ∀ (n : Nat) (s0 s1 : σ), Inv 0 s0 →
      (∀ k s s2, k < n → Inv k s → f s k = some s2 → Inv (k + 1) s2) →
      (List.range n).foldlM f s0 = some s1 → Inv n s1 := by
  intro n
  induction n with
  | zero =>
    intro s0 s1 h0 _ h
    simp only [List.range_zero, List.foldlM_nil] at h
    cases h
    exact h0
  | succ n ih =>
    intro s0 s1 h0 hstep h
    rw [List.range_succ, List.foldlM_append] at h
    cases hmid : (List.range n).foldlM f s0 with
    | none => rw [hmid] at h; simp at h
    | some s =>
      rw [hmid] at h
      have hinv : Inv n s :=
        ih s0 s h0 (fun k s s2 hk => hstep k s s2 (Nat.lt_succ_of_lt hk)) hmid
      have h2 : f s n = some s1 := by simpa using h
      exact hstep n s s1 (Nat.lt_succ_self n) hinv h2

/-- A counted loop completes when every round does, under an invariant. -/
theorem foldlM_range_isSome {σ : Type} (f : σ → Nat → Option σ) (Inv : Nat → σ → Prop) :
    ∀ (n : Nat) (s0 : σ), Inv 0 s0 →
      (∀ k s, k < n → Inv k s → ∃ s2, f s k = some s2 ∧ Inv (k + 1) s2) →
      ∃ s1, (List.range n).foldlM f s0 = some s1 ∧ Inv n s1 := by
  intro n
  induction n with
  | zero =>
    intro s0 h0 _
    exact ⟨s0, by simp, h0⟩
  | succ n ih =>
    intro s0 h0 hstep
    obtain ⟨s, hs, hinv⟩ := ih s0 h0 (fun k s hk => hstep k s (Nat.lt_succ_of_lt hk))
    obtain ⟨s2, hs2, hinv2⟩ := hstep n s (Nat.lt_succ_self n) hinv
    refine ⟨s2, ?_, hinv2⟩
    rw [List.range_succ, List.foldlM_append, hs]
    simp [hs2]

/-- A batch step that completes passed the bounds check and the assertion,
and its result is the closed form. -/
theorem trainBatch_some (P : Primitives R) {N : Nat} (X : Matrix (Fin I) (Fin N) R)
    (y : Matrix (Fin C) (Fin N) R) (learning_rate reg : R) (batch_size : Int)
    (grad_check : Bool) (print_every debug : Int) (epoch batch : Int)
    (st st2 : TrainState R I H C)
    (h : trainBatch P X y learning_rate reg batch_size grad_check print_every debug epoch batch st
      = some st2) :
    colsInBounds N (batch * batch_size) (last_col N batch_size batch) = true ∧
    assertFails P st.nn (cols X (batch * batch_size) (last_col N batch_size batch))
      (cols y (batch * batch_size) (last_col N batch_size batch)) reg grad_check
      print_every st.iter = false ∧
    st2.nn = gradientStep st.nn learning_rate
      (backprop st.nn (cols y (batch * batch_size) (last_col N batch_size batch)) reg
        (feedforward P st.nn (cols X (batch * batch_size) (last_col N batch_size batch)))) ∧
    st2.iter = st.iter + 1 ∧
    st2.print_flag = printFlag print_every batch st.iter ∧
    st2.out = st.out ++
      reportEvents P st.nn (cols X (batch * batch_size) (last_col N batch_size batch))
        (cols y (batch * batch_size) (last_col N batch_size batch)) reg grad_check
        print_every st.iter epoch ++
      (if debug ≠ 0 ∧ printFlag print_every batch st.iter ≠ 0 then
        [Event.snapshot st.iter st2.nn] else []) := by
  by_cases hb : colsInBounds N (batch * batch_size) (last_col N batch_size batch) = true
  · rw [trainBatch_eq P X y learning_rate reg batch_size grad_check print_every debug epoch
      batch st hb] at h
    cases hf : assertFails P st.nn (cols X (batch * batch_size) (last_col N batch_size batch))
      (cols y (batch * batch_size) (last_col N batch_size batch)) reg grad_check
      print_every st.iter
    · rw [hf] at h
      simp only [Bool.false_eq_true, if_false, Option.some.injEq] at h
      subst h
      exact ⟨hb, rfl, rfl, rfl, rfl, rfl⟩
    · rw [hf] at h
      simp at h
  · unfold trainBatch at h
    simp only [hb] at h
    simp at h

/-- In range batches pass the bounds check of `cols`. -/
theorem colsInBounds_batch (N : Nat) (batch_size : Int) (hN : 1 ≤ N) (hb : 1 ≤ batch_size)
    (k : Int) (hk0 : 0 ≤ k) (hk : k < num_batches N batch_size) :
    colsInBounds N (k * batch_size) (last_col N batch_size k) = true := by
  obtain ⟨h1, h2, h3, _, _⟩ :=
    batch_range N batch_size (by exact_mod_cast hN) hb k hk0 hk
  unfold colsInBounds
  rw [decide_eq_true_iff]
  exact ⟨h1, h2, by omega⟩

theorem snapshotIters_append (a b : List (Event R I H C)) :
    snapshotIters (a ++ b) = snapshotIters a ++ snapshotIters b := by
  induction a with
  | nil => rfl
  | cons e a ih => cases e <;> simp [snapshotIters, ih]

theorem lossIters_append (a b : List (Event R I H C)) :
    lossIters (a ++ b) = lossIters a ++ lossIters b := by
  induction a with
  | nil => rfl
  | cons e a ih => cases e <;> simp [lossIters, ih]

theorem gradcheckIters_append (a b : List (Event R I H C)) :
    gradcheckIters (a ++ b) = gradcheckIters a ++ gradcheckIters b := by
  induction a with
  | nil => rfl
  | cons e a ih => cases e <;> simp [gradcheckIters, ih]

/-- The iteration numbers a completed batch step adds to the three kinds of
events. -/
theorem trainBatch_events (P : Primitives R) {N : Nat} (X : Matrix (Fin I) (Fin N) R)
    (y : Matrix (Fin C) (Fin N) R) (learning_rate reg : R) (batch_size : Int)
    (grad_check : Bool) (print_every debug : Int) (epoch batch : Int)
    (st st2 : TrainState R I H C)
    (h : trainBatch P X y learning_rate reg batch_size grad_check print_every debug epoch batch st
      = some st2) :
    snapshotIters st2.out = snapshotIters st.out ++
      (if debug ≠ 0 ∧ printFlag print_every batch st.iter ≠ 0 then [st.iter] else []) ∧
    lossIters st2.out = lossIters st.out ++
      (if atCadence print_every st.iter then [st.iter] else []) ∧
    gradcheckIters st2.out = gradcheckIters st.out ++
      (if atCadence print_every st.iter ∧ grad_check = true then [st.iter] else []) := by
  obtain ⟨_, _, _, _, _, hout⟩ := trainBatch_some P X y learning_rate reg batch_size grad_check
    print_every debug epoch batch st st2 h
  rw [hout]
  simp only [snapshotIters_append, lossIters_append, gradcheckIters_append, reportEvents]
  refine ⟨?_, ?_, ?_⟩
  · by_cases hc : atCadence print_every st.iter = true <;> cases grad_check <;>
      by_cases hd : debug ≠ 0 ∧ printFlag print_every batch st.iter ≠ 0 <;>
      simp [hc, hd, snapshotIters]
  · by_cases hc : atCadence print_every st.iter = true <;> cases grad_check <;>
      by_cases hd : debug ≠ 0 ∧ printFlag print_every batch st.iter ≠ 0 <;>
      simp [hc, hd, lossIters]
  · by_cases hc : atCadence print_every st.iter = true <;> cases grad_check <;>
      by_cases hd : debug ≠ 0 ∧ printFlag print_every batch st.iter ≠ 0 <;>
      simp [hc, hd, gradcheckIters]

/-- Every completed batch step adds one to the counter: after `n` of them it
has grown by `n`. -/
theorem batches_iter (P : Primitives R) {N : Nat} (X : Matrix (Fin I) (Fin N) R)
    (y : Matrix (Fin C) (Fin N) R) (learning_rate reg : R) (batch_size : Int)
    (grad_check : Bool) (print_every debug : Int) (epoch : Int) (n : Nat)
    (st st2 : TrainState R I H C)
    (h : (List.range n).foldlM (fun s (b : Nat) => trainBatch P X y learning_rate reg batch_size
      grad_check print_every debug epoch (b : Int) s) st = some st2) :
    st2.iter = st.iter + n := by
  refine foldlM_range_inv _ (fun k s => s.iter = st.iter + k) n st st2 (by simp) ?_ h
  intro k s s2 _ hinv hstep
  obtain ⟨_, _, _, hit, _, _⟩ := trainBatch_some P X y learning_rate reg batch_size grad_check
    print_every debug epoch k s s2 hstep
  rw [hit, hinv]
  push_cast
  ring

/-- The assertion cannot fail when the gradient check is off or the printing
cadence is disabled. -/
theorem assertFails_safe (P : Primitives R) {k : Nat} (nn : NeuralNetwork R I H C)
    (X_batch : Matrix (Fin I) (Fin k) R) (y_batch : Matrix (Fin C) (Fin k) R) (reg : R)
    (grad_check : Bool) (print_every iter : Int)
    (hsafe : grad_check = false ∨ print_every ≤ 0) :
    assertFails P nn X_batch y_batch reg grad_check print_every iter = false := by
  rcases hsafe with h | h
  · simp [assertFails, h]
  · have : ¬ (0 < print_every) := by omega
    simp [assertFails, atCadence, this]

/-- Without a gradient check that can run, the first `n ≤ num_batches` batch
steps of an epoch all complete. -/
theorem batches_isSome (P : Primitives R) {N : Nat} (X : Matrix (Fin I) (Fin N) R)
    (y : Matrix (Fin C) (Fin N) R) (learning_rate reg : R) (batch_size : Int)
    (grad_check : Bool) (print_every debug : Int) (epoch : Int)
    (hsafe : grad_check = false ∨ print_every ≤ 0) (hN : 1 ≤ N) (hb : 1 ≤ batch_size) (n : Nat)
    (hn : (n : Int) ≤ num_batches N batch_size) (st : TrainState R I H C) :
    ∃ st2, (List.range n).foldlM (fun s (b : Nat) => trainBatch P X y learning_rate reg batch_size
      grad_check print_every debug epoch (b : Int) s) st = some st2 := by
  obtain ⟨s1, hs1, _⟩ := foldlM_range_isSome
    (fun s (b : Nat) => trainBatch P X y learning_rate reg batch_size
      grad_check print_every debug epoch (b : Int) s) (fun _ _ => True) n st trivial (by
    intro k s hk _
    have hin := colsInBounds_batch N batch_size hN hb (k : Int) (by omega) (by omega)
    have he := trainBatch_eq P X y learning_rate reg batch_size grad_check print_every debug
      epoch k s hin
    rw [assertFails_safe P s.nn _ _ reg grad_check print_every s.iter hsafe] at he
    exact ⟨_, he, trivial⟩)
  exact ⟨s1, hs1⟩

/-- An epoch that completes adds `num_batches` to the counter. -/
theorem trainEpoch_iter (P : Primitives R) {N : Nat} (X : Matrix (Fin I) (Fin N) R)
    (y : Matrix (Fin C) (Fin N) R) (learning_rate reg : R) (batch_size : Int)
    (grad_check : Bool) (print_every debug : Int) (epoch : Int) (hN : 1 ≤ N)
    (hb : 1 ≤ batch_size) (st st2 : TrainState R I H C)
    (h : trainEpoch P X y learning_rate reg batch_size grad_check print_every debug epoch st
      = some st2) :
    st2.iter = st.iter + num_batches N batch_size := by
  obtain ⟨_, _, h3⟩ := num_batches_bounds N batch_size (by exact_mod_cast hN) hb
  unfold trainEpoch at h
  rw [if_neg (by omega)] at h
  rw [batches_iter P X y learning_rate reg batch_size grad_check print_every debug epoch _ st st2 h]
  rw [Int.toNat_of_nonneg (by omega)]

/-- Without a gradient check that can run, an epoch completes. -/
theorem trainEpoch_isSome (P : Primitives R) {N : Nat} (X : Matrix (Fin I) (Fin N) R)
    (y : Matrix (Fin C) (Fin N) R) (learning_rate reg : R) (batch_size : Int)
    (grad_check : Bool) (print_every debug : Int) (epoch : Int)
    (hsafe : grad_check = false ∨ print_every ≤ 0) (hN : 1 ≤ N) (hb : 1 ≤ batch_size)
    (st : TrainState R I H C) :
    ∃ st2, trainEpoch P X y learning_rate reg batch_size grad_check print_every debug epoch st
      = some st2 := by
  obtain ⟨_, _, h3⟩ := num_batches_bounds N batch_size (by exact_mod_cast hN) hb
  unfold trainEpoch
  rw [if_neg (by omega)]
  exact batches_isSome P X y learning_rate reg batch_size grad_check print_every debug epoch
    hsafe hN hb _ (by rw [Int.toNat_of_nonneg (by omega)]) st

/-- A run of `train` that completes leaves the counter at
`epochs * num_batches`. -/
theorem train_iter (P : Primitives R) {N : Nat} (nn : NeuralNetwork R I H C)
    (X : Matrix (Fin I) (Fin N) R)
    (y : Matrix (Fin C) (Fin N) R) (learning_rate reg : R) (epochs batch_size : Int)
    (grad_check : Bool) (print_every debug : Int) (hN : 1 ≤ N)
    (hb : 1 ≤ batch_size) (st : TrainState R I H C)
    (h : train P nn X y learning_rate reg epochs batch_size grad_check print_every debug
      = some st) :
    st.iter = (epochs.toNat : Int) * num_batches N batch_size := by
  unfold train at h
  refine foldlM_range_inv _ (fun k s => s.iter = (k : Int) * num_batches N batch_size)
    epochs.toNat _ st (by simp) ?_ h
  intro k s s2 _ hinv hstep
  rw [trainEpoch_iter P X y learning_rate reg batch_size grad_check print_every debug k hN hb
    s s2 hstep, hinv]
  push_cast
  ring

/-- Without a gradient check that can run, `train` completes. -/
theorem train_isSome (P : Primitives R) {N : Nat} (nn : NeuralNetwork R I H C)
    (X : Matrix (Fin I) (Fin N) R)
    (y : Matrix (Fin C) (Fin N) R) (learning_rate reg : R) (epochs batch_size : Int)
    (grad_check : Bool) (print_every debug : Int)
    (hsafe : grad_check = false ∨ print_every ≤ 0) (hN : 1 ≤ N) (hb : 1 ≤ batch_size) :
    ∃ st, train P nn X y learning_rate reg epochs batch_size grad_check print_every debug
      = some st := by
  unfold train
  obtain ⟨s1, hs1, _⟩ := foldlM_range_isSome
    (fun s (e : Nat) => trainEpoch P X y learning_rate reg batch_size grad_check print_every
      debug (e : Int) s) (fun _ _ => True) epochs.toNat
    { nn := nn, iter := 0, print_flag := 0, out := [] } trivial (by
    intro k s _ _
    obtain ⟨s2, hs2⟩ := trainEpoch_isSome P X y learning_rate reg batch_size grad_check
      print_every debug (k : Int) hsafe hN hb s
    exact ⟨s2, hs2, trivial⟩)
  exact ⟨s1, hs1⟩

/-- The arithmetic of the batch schedule and the number of batch steps of one
epoch: `num_batches` is the ceiling, one epoch adds that many to the counter,
the ranges are accepted by `cols`, not empty, inside `[0, N-1]`, adjacent, and
cover every column once; no value computed for the schedule exceeds
`N + batch_size - 1`. -/
theorem train_schedule_counts (P : Primitives R) {N : Nat} (nn : NeuralNetwork R I H C)
    (X : Matrix (Fin I) (Fin N) R) (y : Matrix (Fin C) (Fin N) R) (learning_rate reg : R)
    (batch_size : Int) (grad_check : Bool) (print_every debug : Int)
    (hN : 1 ≤ N) (hb : 1 ≤ batch_size) :
    Int.ceil (((N : Int) : ℚ) / (batch_size : ℚ)) = num_batches N batch_size ∧
    (∀ st, train P nn X y learning_rate reg 1 batch_size grad_check print_every debug = some st →
      st.iter = num_batches N batch_size) ∧
    (∃ st, train P nn X y learning_rate reg 1 batch_size false print_every debug = some st) ∧
    (∀ k : Int, 0 ≤ k → k < num_batches N batch_size →
      colsInBounds N (k * batch_size) (last_col N batch_size k) = true ∧
      0 ≤ k * batch_size ∧ k * batch_size ≤ last_col N batch_size k ∧
      last_col N batch_size k ≤ (N : Int) - 1) ∧
    (∀ k : Int, 0 ≤ k → k + 1 < num_batches N batch_size →
      (k + 1) * batch_size = last_col N batch_size k + 1 ∧
      last_col N batch_size k - k * batch_size + 1 = batch_size) ∧
    (last_col N batch_size (num_batches N batch_size - 1) = (N : Int) - 1 ∧
      1 ≤ (N : Int) - (num_batches N batch_size - 1) * batch_size ∧
      (N : Int) - (num_batches N batch_size - 1) * batch_size ≤ batch_size) ∧
    (∀ c : Int, 0 ≤ c → c ≤ (N : Int) - 1 →
      ∃! k : Int, 0 ≤ k ∧ k < num_batches N batch_size ∧
        k * batch_size ≤ c ∧ c ≤ last_col N batch_size k) ∧
    (∀ k : Int, 0 ≤ k → k < num_batches N batch_size →
      0 ≤ (k + 1) * batch_size - 1 ∧ (k + 1) * batch_size - 1 ≤ (N : Int) + batch_size - 1) := by
  have hN2 : (1 : Int) ≤ (N : Int) := by exact_mod_cast hN
  obtain ⟨h1, h2, h3⟩ := num_batches_bounds N batch_size hN2 hb
  refine ⟨num_batches_eq_ceil N batch_size hN2 hb, ?_, ?_, ?_, ?_, ?_, ?_, ?_⟩
  rotate_right
  · intro k hk0 hk
    have hkb : k * batch_size ≤ (num_batches N batch_size - 1) * batch_size :=
      mul_le_mul_of_nonneg_right (by omega) (by omega)
    have hpos : 0 ≤ k * batch_size := mul_nonneg hk0 (by omega)
    constructor
    · linarith
    · linarith
  · intro st hst
    rw [train_iter P nn X y learning_rate reg 1 batch_size grad_check print_every debug hN hb
      st hst]
    simp
  · exact train_isSome P nn X y learning_rate reg 1 batch_size false print_every debug
      (Or.inl rfl) hN hb
  · intro k hk0 hk
    obtain ⟨r1, r2, r3, _, _⟩ := batch_range N batch_size hN2 hb k hk0 hk
    exact ⟨colsInBounds_batch N batch_size hN hb k hk0 hk, r1, r2, r3⟩
  · intro k hk0 hk
    obtain ⟨_, _, _, r4, _⟩ := batch_range N batch_size hN2 hb k hk0 (by omega)
    rw [r4 hk]
    constructor <;> ring
  · obtain ⟨_, _, _, _, r5⟩ := batch_range N batch_size hN2 hb
      (num_batches N batch_size - 1) (by omega) (by omega)
    refine ⟨r5 (by ring), by linarith, by linarith⟩
  · intro c hc0 hc
    exact batch_partition N batch_size hN2 hb c hc0 hc

/-- The slice `cols(0, N - 1)` of a matrix of `N ≥ 1` columns is the matrix
itself: whatever is computed from the slices of `X` and `y` is computed from
`X` and `y`. -/
theorem cols_full_apply {β : Type} {N : Nat}
    (F : (k : Nat) → Matrix (Fin I) (Fin k) R → Matrix (Fin C) (Fin k) R → β)
    (X : Matrix (Fin I) (Fin N) R) (y : Matrix (Fin C) (Fin N) R) (hN : 1 ≤ N) :
    F _ (cols X 0 ((N : Int) - 1)) (cols y 0 ((N : Int) - 1)) = F N X y := by
  have hk : (((N : Int) - 1) + 1 - 0).toNat = N := by omega
  have key : ∀ (k : Nat) (hk : k = N),
      F k (fun i j => X i (Fin.cast hk j)) (fun i j => y i (Fin.cast hk j)) = F N X y := by
    intro k hk
    subst hk
    rfl
  have hX : cols X 0 ((N : Int) - 1) = fun i j => X i (Fin.cast hk j) := by
    funext i j
    have hj : ((0 : Int) + (j.val : Int)).toNat < N := by
      have := j.isLt
      omega
    unfold cols
    rw [dif_pos hj]
    congr 1
    apply Fin.ext
    simp
  have hy : cols y 0 ((N : Int) - 1) = fun i j => y i (Fin.cast hk j) := by
    funext i j
    have hj : ((0 : Int) + (j.val : Int)).toNat < N := by
      have := j.isLt
      omega
    unfold cols
    rw [dif_pos hj]
    congr 1
    apply Fin.ext
    simp
  rw [hX, hy]
  exact key _ hk

/-- A batch size of at least `N ≥ 1` gives one batch, which ends at the last
column. -/
theorem single_batch (N batch_size : Int) (hN : 1 ≤ N) (hb : N ≤ batch_size) :
    num_batches N batch_size = 1 ∧ last_col N batch_size 0 = N - 1 := by
  constructor
  · unfold num_batches
    rw [Int.tdiv_eq_ediv (by omega) (by omega)]
    have h1 := Int.emod_add_ediv (N + batch_size - 1) batch_size
    have h2 := Int.emod_nonneg (N + batch_size - 1) (show batch_size ≠ 0 by omega)
    have h3 := Int.emod_lt_of_pos (N + batch_size - 1) (show 0 < batch_size by omega)
    have hq : ((N + batch_size - 1) / batch_size - 1) * batch_size < batch_size := by nlinarith
    have hq2 : 0 < (N + batch_size - 1) / batch_size * batch_size := by nlinarith
    have hlt : (N + batch_size - 1) / batch_size - 1 < 1 := by
      by_contra hge
      have : 1 * batch_size ≤ ((N + batch_size - 1) / batch_size - 1) * batch_size :=
        mul_le_mul_of_nonneg_right (by omega) (by omega)
      omega
    have hgt : 0 < (N + batch_size - 1) / batch_size := by
      by_contra hle
      have : (N + batch_size - 1) / batch_size * batch_size ≤ 0 * batch_size :=
        mul_le_mul_of_nonneg_right (by omega) (by omega)
      omega
    omega
  · unfold last_col
    apply min_eq_right
    omega

/-- With one epoch and one batch, `train` is one batch step on the whole data
set. -/
theorem train_single_batch (P : Primitives R) {N : Nat} (nn : NeuralNetwork R I H C)
    (X : Matrix (Fin I) (Fin N) R) (y : Matrix (Fin C) (Fin N) R) (learning_rate reg : R)
    (batch_size : Int) (grad_check : Bool) (print_every debug : Int)
    (hN : 1 ≤ N) (hb : (N : Int) ≤ batch_size) :
    (train P nn X y learning_rate reg 1 batch_size grad_check print_every debug).map
        (fun st => st.nn)
      = if assertFails P nn X y reg grad_check print_every 0 then none
        else some (gradientStep nn learning_rate (backprop nn y reg (feedforward P nn X))) := by
  have hN2 : (1 : Int) ≤ (N : Int) := by exact_mod_cast hN
  obtain ⟨hnb, hlast⟩ := single_batch N batch_size hN2 hb
  have hin := colsInBounds_batch N batch_size hN (by omega) 0 le_rfl (by omega)
  have hstep := trainBatch_eq P X y learning_rate reg batch_size grad_check print_every debug
    0 0 { nn := nn, iter := 0, print_flag := 0, out := [] } hin
  have hrun : train P nn X y learning_rate reg 1 batch_size grad_check print_every debug
      = trainBatch P X y learning_rate reg batch_size grad_check print_every debug
          0 0 { nn := nn, iter := 0, print_flag := 0, out := [] } := by
    have hb0 : batch_size ≠ 0 := by omega
    unfold train trainEpoch
    rw [hnb]
    simp [List.range_succ, hb0]
  rw [hrun, hstep]
  simp only []
  rw [hlast, zero_mul]
  have hmap : ∀ (k : Nat) (Xb : Matrix (Fin I) (Fin k) R) (yb : Matrix (Fin C) (Fin k) R)
      (s : TrainState R I H C),
      s.nn = gradientStep nn learning_rate (backprop nn yb reg (feedforward P nn Xb)) →
      Option.map (fun st : TrainState R I H C => st.nn)
        (if assertFails P nn Xb yb reg grad_check print_every 0 = true then none else some s)
      = if assertFails P nn Xb yb reg grad_check print_every 0 = true then none
        else some (gradientStep nn learning_rate (backprop nn yb reg (feedforward P nn Xb))) := by
    intro k Xb yb s hs
    split_ifs
    · rfl
    · simp [hs]
  rw [hmap _ _ _ _ rfl]
  exact cols_full_apply
    (fun k (Xb : Matrix (Fin I) (Fin k) R) (yb : Matrix (Fin C) (Fin k) R) =>
      if assertFails P nn Xb yb reg grad_check print_every 0 = true then none
      else some (gradientStep nn learning_rate (backprop nn yb reg (feedforward P nn Xb))))
    X y hN

/-- C4: every batch step of `train` that completes replaces `W[i]` by
`W[i] - learning_rate * dW[i]` and `b[i]` by `b[i] - learning_rate * db[i]`,
with `dW`, `db` the output of `backprop` on the cache `feedforward` produced
from the parameters held before the step, for every value of `grad_check`,
`print_every` and `debug`; a step on a valid column range completes unless the
assertion of the gradient check fails, which cannot happen with `grad_check`
unset.  For `epochs = 1` and `batch_size ≥ N ≥ 1` the network after `train`
is the initial one minus `learning_rate` times the `backprop` gradient of the
whole data set. -/
theorem train_gradient_step (P : Primitives R) {N : Nat} (X : Matrix (Fin I) (Fin N) R)
    (y : Matrix (Fin C) (Fin N) R) (learning_rate reg : R) (batch_size : Int)
    (grad_check : Bool) (print_every debug : Int) :
    (∀ (epoch batch : Int) (st st2 : TrainState R I H C),
      trainBatch P X y learning_rate reg batch_size grad_check print_every debug epoch batch st
        = some st2 →
      st2.nn.W0 = st.nn.W0 - learning_rate •
        (backprop st.nn (cols y (batch * batch_size) (last_col N batch_size batch)) reg
          (feedforward P st.nn (cols X (batch * batch_size) (last_col N batch_size batch)))).dW0 ∧
      st2.nn.W1 = st.nn.W1 - learning_rate •
        (backprop st.nn (cols y (batch * batch_size) (last_col N batch_size batch)) reg
          (feedforward P st.nn (cols X (batch * batch_size) (last_col N batch_size batch)))).dW1 ∧
      st2.nn.b0 = st.nn.b0 - learning_rate •
        (backprop st.nn (cols y (batch * batch_size) (last_col N batch_size batch)) reg
          (feedforward P st.nn (cols X (batch * batch_size) (last_col N batch_size batch)))).db0 ∧
      st2.nn.b1 = st.nn.b1 - learning_rate •
        (backprop st.nn (cols y (batch * batch_size) (last_col N batch_size batch)) reg
          (feedforward P st.nn (cols X (batch * batch_size) (last_col N batch_size batch)))).db1) ∧
    (∀ (epoch batch : Int) (st : TrainState R I H C),
      colsInBounds N (batch * batch_size) (last_col N batch_size batch) = true →
      ((trainBatch P X y learning_rate reg batch_size grad_check print_every debug epoch batch
          st).isSome = true ↔
        assertFails P st.nn (cols X (batch * batch_size) (last_col N batch_size batch))
          (cols y (batch * batch_size) (last_col N batch_size batch)) reg grad_check
          print_every st.iter = false) ∧
      (grad_check = false →
        (trainBatch P X y learning_rate reg batch_size grad_check print_every debug epoch batch
          st).isSome = true)) ∧
    (∀ nn : NeuralNetwork R I H C, 1 ≤ N → (N : Int) ≤ batch_size →
      (train P nn X y learning_rate reg 1 batch_size grad_check print_every debug).map
          (fun st => st.nn)
        = if assertFails P nn X y reg grad_check print_every 0 then none
          else some
            { W0 := nn.W0 - learning_rate • (backprop nn y reg (feedforward P nn X)).dW0
              W1 := nn.W1 - learning_rate • (backprop nn y reg (feedforward P nn X)).dW1
              b0 := nn.b0 - learning_rate • (backprop nn y reg (feedforward P nn X)).db0
              b1 := nn.b1 - learning_rate • (backprop nn y reg (feedforward P nn X)).db1 }) := by
  refine ⟨?_, ?_, ?_⟩
  · intro epoch batch st st2 h
    obtain ⟨_, _, hnn, _, _, _⟩ := trainBatch_some P X y learning_rate reg batch_size grad_check
      print_every debug epoch batch st st2 h
    rw [hnn]
    exact ⟨rfl, rfl, rfl, rfl⟩
  · intro epoch batch st hin
    have he := trainBatch_eq P X y learning_rate reg batch_size grad_check print_every debug
      epoch batch st hin
    refine ⟨?_, ?_⟩
    · rw [he]
      cases assertFails P st.nn (cols X (batch * batch_size) (last_col N batch_size batch))
          (cols y (batch * batch_size) (last_col N batch_size batch)) reg grad_check
          print_every st.iter <;> simp
    · intro hg
      rw [he, assertFails_safe P st.nn _ _ reg grad_check print_every st.iter (Or.inl hg)]
      simp
  · intro nn hN hb
    exact train_single_batch P nn X y learning_rate reg batch_size grad_check print_every debug
      hN hb

/-- Witness for C4: one unit per layer, one sample, `batch_size = 1`. -/
theorem train_gradient_step_witness :
    (1 ≤ 1 ∧ ((1 : Nat) : Int) ≤ 1) ∧
    (train ratPrimitives (unitNet 1 1 0 0) (constRow 1 0) (constRow 1 1) (1 / 2) 1 1 1
        false 0 0).map (fun st => st.nn)
      = if assertFails ratPrimitives (unitNet 1 1 0 0) (constRow 1 0) (constRow 1 1) 1
            false 0 0 then none
        else some
          { W0 := (unitNet 1 1 0 0).W0 - (1 / 2 : ℚ) • (backprop (unitNet 1 1 0 0)
              (constRow 1 1) 1 (feedforward ratPrimitives (unitNet 1 1 0 0) (constRow 1 0))).dW0
            W1 := (unitNet 1 1 0 0).W1 - (1 / 2 : ℚ) • (backprop (unitNet 1 1 0 0)
              (constRow 1 1) 1 (feedforward ratPrimitives (unitNet 1 1 0 0) (constRow 1 0))).dW1
            b0 := (unitNet 1 1 0 0).b0 - (1 / 2 : ℚ) • (backprop (unitNet 1 1 0 0)
              (constRow 1 1) 1 (feedforward ratPrimitives (unitNet 1 1 0 0) (constRow 1 0))).db0
            b1 := (unitNet 1 1 0 0).b1 - (1 / 2 : ℚ) • (backprop (unitNet 1 1 0 0)
              (constRow 1 1) 1 (feedforward ratPrimitives (unitNet 1 1 0 0) (constRow 1 0))).db1 } :=
  ⟨⟨by decide, by decide⟩,
    (train_gradient_step ratPrimitives (constRow 1 0) (constRow 1 1) (1 / 2) 1 1 false 0 0).2.2
      (unitNet 1 1 0 0) (by decide) (by decide)⟩

/-- The trajectory of `train`: `stateAt` starts at the initial state, moves by
one batch step inside an epoch, passes from the end of an epoch to the start
of the next, and `train` stops at the start of epoch `epochs`. -/
theorem stateAt_trajectory (P : Primitives R) {N : Nat} (nn : NeuralNetwork R I H C)
    (X : Matrix (Fin I) (Fin N) R) (y : Matrix (Fin C) (Fin N) R) (learning_rate reg : R)
    (epochs batch_size : Int) (grad_check : Bool) (print_every debug : Int)
    (hb : batch_size ≠ 0) :
    stateAt P nn X y learning_rate reg batch_size grad_check print_every debug 0 0
      = some { nn := nn, iter := 0, print_flag := 0, out := [] } ∧
    (∀ e b : Nat,
      stateAt P nn X y learning_rate reg batch_size grad_check print_every debug e (b + 1)
        = (stateAt P nn X y learning_rate reg batch_size grad_check print_every debug e b).bind
            (trainBatch P X y learning_rate reg batch_size grad_check print_every debug e b)) ∧
    (∀ e : Nat,
      stateAt P nn X y learning_rate reg batch_size grad_check print_every debug (e + 1) 0
        = stateAt P nn X y learning_rate reg batch_size grad_check print_every debug e
            (num_batches N batch_size).toNat) ∧
    train P nn X y learning_rate reg epochs batch_size grad_check print_every debug
      = stateAt P nn X y learning_rate reg batch_size grad_check print_every debug
          epochs.toNat 0 := by
  refine ⟨?_, ?_, ?_, ?_⟩
  · simp [stateAt, train]
  · intro e b
    unfold stateAt
    rw [List.range_succ]
    simp only [List.foldlM_append, List.foldlM_cons, List.foldlM_nil]
    cases train P nn X y learning_rate reg (e : Int) batch_size grad_check print_every debug with
    | none => rfl
    | some s =>
      simp only [Option.some_bind]
      cases (List.range b).foldlM (fun s (b : Nat) => trainBatch P X y learning_rate reg
        batch_size grad_check print_every debug (e : Int) (b : Int) s) s with
      | none => rfl
      | some s2 => simp
  · intro e
    unfold stateAt train
    have h1 : (((e + 1 : Nat) : Int)).toNat = e + 1 := by simp
    have h2 : ((e : Nat) : Int).toNat = e := by simp
    rw [h1, h2, List.range_succ]
    simp only [List.foldlM_append, List.foldlM_cons, List.foldlM_nil, List.range_zero]
    cases (List.range e).foldlM (fun s (epoch : Nat) => trainEpoch P X y learning_rate reg
      batch_size grad_check print_every debug (epoch : Int) s)
      { nn := nn, iter := 0, print_flag := 0, out := [] } with
    | none => rfl
    | some s => simp [trainEpoch, hb]
  · unfold stateAt
    have h1 : ((epochs.toNat : Nat) : Int).toNat = epochs.toNat := Int.toNat_ofNat _
    have h2 : train P nn X y learning_rate reg (epochs.toNat : Int) batch_size grad_check
        print_every debug = train P nn X y learning_rate reg epochs batch_size grad_check
        print_every debug := by
      unfold train
      rw [h1]
    rw [h2]
    cases train P nn X y learning_rate reg epochs batch_size grad_check print_every debug with
    | none => rfl
    | some s => simp


/-- The counter at the start of batch `b` of epoch `e`. -/
theorem stateAt_iter (P : Primitives R) {N : Nat} (nn : NeuralNetwork R I H C)
    (X : Matrix (Fin I) (Fin N) R) (y : Matrix (Fin C) (Fin N) R) (learning_rate reg : R)
    (batch_size : Int) (grad_check : Bool) (print_every debug : Int)
    (hN : 1 ≤ N) (hb : 1 ≤ batch_size) (e b : Nat) (s : TrainState R I H C)
    (h : stateAt P nn X y learning_rate reg batch_size grad_check print_every debug e b = some s) :
    s.iter = (e : Int) * num_batches N batch_size + b := by
  unfold stateAt at h
  cases h0 : train P nn X y learning_rate reg (e : Int) batch_size grad_check print_every debug with
  | none => rw [h0] at h; simp at h
  | some s0 =>
    rw [h0] at h
    simp only [Option.some_bind] at h
    have h1 := train_iter P nn X y learning_rate reg (e : Int) batch_size grad_check print_every
      debug hN hb s0 h0
    have h2 := batches_iter P X y learning_rate reg batch_size grad_check print_every debug
      (e : Int) b s0 s h
    rw [h2, h1, Int.toNat_ofNat]

/-- Without a gradient check that can run, the loop reaches every batch. -/
theorem stateAt_isSome (P : Primitives R) {N : Nat} (nn : NeuralNetwork R I H C)
    (X : Matrix (Fin I) (Fin N) R) (y : Matrix (Fin C) (Fin N) R) (learning_rate reg : R)
    (batch_size : Int) (grad_check : Bool) (print_every debug : Int)
    (hsafe : grad_check = false ∨ print_every ≤ 0)
    (hN : 1 ≤ N) (hb : 1 ≤ batch_size) (e b : Nat) (hbn : (b : Int) ≤ num_batches N batch_size) :
    ∃ s, stateAt P nn X y learning_rate reg batch_size grad_check print_every debug e b
      = some s := by
  obtain ⟨s0, h0⟩ := train_isSome P nn X y learning_rate reg (e : Int) batch_size grad_check
    print_every debug hsafe hN hb
  obtain ⟨s1, h1⟩ := batches_isSome P X y learning_rate reg batch_size grad_check print_every
    debug (e : Int) hsafe hN hb b hbn s0
  refine ⟨s1, ?_⟩
  unfold stateAt
  rw [h0]
  exact h1

/-- What holds initially and is kept by every completed batch step holds when
`train` completes. -/
theorem train_inv (P : Primitives R) {N : Nat} (nn : NeuralNetwork R I H C)
    (X : Matrix (Fin I) (Fin N) R) (y : Matrix (Fin C) (Fin N) R) (learning_rate reg : R)
    (epochs batch_size : Int) (grad_check : Bool) (print_every debug : Int)
    (J : TrainState R I H C → Prop)
    (h0 : J { nn := nn, iter := 0, print_flag := 0, out := [] })
    (hstep : ∀ (e b : Int) (s s2 : TrainState R I H C), J s →
      trainBatch P X y learning_rate reg batch_size grad_check print_every debug e b s = some s2 →
      J s2)
    (st : TrainState R I H C)
    (h : train P nn X y learning_rate reg epochs batch_size grad_check print_every debug
      = some st) : J st := by
  unfold train at h
  refine foldlM_range_inv _ (fun _ s => J s) epochs.toNat _ st h0 ?_ h
  intro e s s2 _ hJ he
  unfold trainEpoch at he
  split_ifs at he
  exact foldlM_range_inv _ (fun _ s => J s) _ s s2 hJ
    (fun b s3 s4 _ hJ3 h34 => hstep e b s3 s4 hJ3 h34) he

/-- The flag of lines 281-285 is set exactly at the cadence, or at the first
batch when the cadence is disabled. -/
theorem printFlag_ne_zero (print_every batch iter : Int) :
    printFlag print_every batch iter ≠ 0 ↔
      (0 < print_every ∧ iter.tmod print_every = 0) ∨ (print_every ≤ 0 ∧ batch = 0) := by
  unfold printFlag
  by_cases hp : print_every ≤ 0
  · have hp2 : ¬ (0 < print_every) := by omega
    by_cases hb : batch = 0 <;> simp [hp, hp2, hb]
  · have hp2 : 0 < print_every := by omega
    by_cases hm : iter.tmod print_every = 0 <;> simp [hp, hp2, hm]

/-- For a counter that is not negative the C++ remainder is the usual one. -/
theorem atCadence_iff (print_every iter : Int) (hi : 0 ≤ iter) :
    atCadence print_every iter = true ↔ 0 < print_every ∧ iter % print_every = 0 := by
  unfold atCadence
  rw [decide_eq_true_iff]
  constructor
  · rintro ⟨hp, hm⟩
    rw [Int.tmod_eq_emod hi (by omega)] at hm
    exact ⟨hp, hm⟩
  · rintro ⟨hp, hm⟩
    rw [Int.tmod_eq_emod hi (by omega)]
    exact ⟨hp, hm⟩

/-- C7: in `train` with `N ≥ 1` and `batch_size ≥ 1` the loop follows the
trajectory `stateAt`; the counter at the start of batch `b` of epoch `e` is
`e * num_batches + b`, every completed batch step adds one to it (it is never
reset), and the step persists a snapshot keyed by that counter exactly when
`debug` is set and either `print_every > 0` and the counter is a multiple of
`print_every`, or `print_every ≤ 0` and `b = 0`; with `debug` unset no
snapshot is persisted.  Without the gradient check every batch is reached. -/
theorem train_counter_and_snapshots (P : Primitives R) {N : Nat} (nn : NeuralNetwork R I H C)
    (X : Matrix (Fin I) (Fin N) R) (y : Matrix (Fin C) (Fin N) R) (learning_rate reg : R)
    (epochs batch_size : Int) (grad_check : Bool) (print_every debug : Int)
    (hN : 1 ≤ N) (hb : 1 ≤ batch_size) :
    (stateAt P nn X y learning_rate reg batch_size grad_check print_every debug 0 0
        = some { nn := nn, iter := 0, print_flag := 0, out := [] } ∧
      (∀ e b : Nat,
        stateAt P nn X y learning_rate reg batch_size grad_check print_every debug e (b + 1)
          = (stateAt P nn X y learning_rate reg batch_size grad_check print_every debug e b).bind
              (trainBatch P X y learning_rate reg batch_size grad_check print_every debug e b)) ∧
      (∀ e : Nat,
        stateAt P nn X y learning_rate reg batch_size grad_check print_every debug (e + 1) 0
          = stateAt P nn X y learning_rate reg batch_size grad_check print_every debug e
              (num_batches N batch_size).toNat) ∧
      train P nn X y learning_rate reg epochs batch_size grad_check print_every debug
        = stateAt P nn X y learning_rate reg batch_size grad_check print_every debug
            epochs.toNat 0) ∧
    (∀ (e b : Nat) (s : TrainState R I H C),
      stateAt P nn X y learning_rate reg batch_size grad_check print_every debug e b = some s →
      s.iter = (e : Int) * num_batches N batch_size + b) ∧
    (∀ (e b : Nat) (s s2 : TrainState R I H C),
      stateAt P nn X y learning_rate reg batch_size grad_check print_every debug e b = some s →
      trainBatch P X y learning_rate reg batch_size grad_check print_every debug e b s
        = some s2 →
      s2.iter = s.iter + 1 ∧
      snapshotIters s2.out = snapshotIters s.out ++
        (if debug ≠ 0 ∧
            ((0 < print_every ∧ ((e : Int) * num_batches N batch_size + b) % print_every = 0) ∨
              (print_every ≤ 0 ∧ b = 0))
         then [(e : Int) * num_batches N batch_size + b] else [])) ∧
    (debug = 0 → ∀ st : TrainState R I H C,
      train P nn X y learning_rate reg epochs batch_size grad_check print_every debug = some st →
      snapshotIters st.out = []) ∧
    (grad_check = false → ∀ e b : Nat, (b : Int) ≤ num_batches N batch_size →
      ∃ s, stateAt P nn X y learning_rate reg batch_size grad_check print_every debug e b
        = some s) := by
  obtain ⟨_, _, hnb⟩ := num_batches_bounds N batch_size (by exact_mod_cast hN) hb
  refine ⟨stateAt_trajectory P nn X y learning_rate reg epochs batch_size grad_check print_every
    debug (by omega), ?_, ?_, ?_, ?_⟩
  · intro e b s h
    exact stateAt_iter P nn X y learning_rate reg batch_size grad_check print_every debug hN hb
      e b s h
  · intro e b s s2 hs hstep
    have hit := stateAt_iter P nn X y learning_rate reg batch_size grad_check print_every debug
      hN hb e b s hs
    obtain ⟨_, _, _, hit2, _, _⟩ := trainBatch_some P X y learning_rate reg batch_size grad_check
      print_every debug e b s s2 hstep
    obtain ⟨hsnap, _, _⟩ := trainBatch_events P X y learning_rate reg batch_size grad_check
      print_every debug e b s s2 hstep
    refine ⟨hit2, ?_⟩
    rw [hsnap, hit]
    have hi : (0 : Int) ≤ (e : Int) * num_batches N batch_size + b := by positivity
    have hflag := printFlag_ne_zero print_every (b : Int)
      ((e : Int) * num_batches N batch_size + b)
    have hmod : ∀ hp : 0 < print_every,
        ((e : Int) * num_batches N batch_size + b).tmod print_every
          = ((e : Int) * num_batches N batch_size + b) % print_every :=
      fun hp => Int.tmod_eq_emod hi (by omega)
    have hcond : (debug ≠ 0 ∧ printFlag print_every (b : Int)
          ((e : Int) * num_batches N batch_size + b) ≠ 0) ↔
        (debug ≠ 0 ∧
          ((0 < print_every ∧ ((e : Int) * num_batches N batch_size + b) % print_every = 0) ∨
            (print_every ≤ 0 ∧ b = 0))) := by
      rw [hflag]
      constructor
      · rintro ⟨hd, ⟨hp, hm⟩ | ⟨hp, hb0⟩⟩
        · exact ⟨hd, Or.inl ⟨hp, by rw [← hmod hp]; exact hm⟩⟩
        · exact ⟨hd, Or.inr ⟨hp, by exact_mod_cast hb0⟩⟩
      · rintro ⟨hd, ⟨hp, hm⟩ | ⟨hp, hb0⟩⟩
        · exact ⟨hd, Or.inl ⟨hp, by rw [hmod hp]; exact hm⟩⟩
        · exact ⟨hd, Or.inr ⟨hp, by exact_mod_cast hb0⟩⟩
    simp only [hcond]
  · intro hd st hst
    refine train_inv P nn X y learning_rate reg epochs batch_size grad_check print_every debug
      (fun s => snapshotIters s.out = []) rfl ?_ st hst
    intro e b s s2 hJ hstep
    obtain ⟨hsnap, _, _⟩ := trainBatch_events P X y learning_rate reg batch_size grad_check
      print_every debug e b s s2 hstep
    rw [hsnap, hJ]
    simp [hd]
  · intro hg e b hbn
    exact stateAt_isSome P nn X y learning_rate reg batch_size grad_check print_every debug
      (Or.inl hg) hN hb e b hbn

/-- Witness for C7: eight samples in batches of four, two epochs, `debug` set
and the cadence disabled; the counter at batch 1 of epoch 1. -/
theorem train_counter_and_snapshots_witness :
    (1 ≤ 8 ∧ (1 : Int) ≤ 4) ∧
    ∀ s : TrainState ℚ 1 1 1,
      stateAt ratPrimitives (unitNet 1 1 0 0) (constRow 8 0) (constRow 8 1) (1 / 2) 1 4
        false 0 1 1 1 = some s →
      s.iter = ((1 : Nat) : Int) * num_batches (8 : Nat) 4 + (1 : Nat) :=
  ⟨⟨by decide, by decide⟩,
    (train_counter_and_snapshots ratPrimitives (unitNet 1 1 0 0) (constRow 8 0) (constRow 8 1)
      (1 / 2) 1 2 4 false 0 1 (by decide) (by decide)).2.1 1 1⟩

/-- C8 as the code has it: in `train` a completed batch step writes the loss
line exactly when `print_every > 0` and the counter is a multiple of
`print_every`, and runs the gradient check exactly then when `grad_check` is
set; for `print_every > 0` the snapshot of a run with `debug` set is taken at
the same iterations.  When the cadence is disabled (`print_every ≤ 0`) the
run completes and contains no loss line and no gradient check at all. -/
theorem train_report_cadence (P : Primitives R) {N : Nat} (nn : NeuralNetwork R I H C)
    (X : Matrix (Fin I) (Fin N) R) (y : Matrix (Fin C) (Fin N) R) (learning_rate reg : R)
    (epochs batch_size : Int) (grad_check : Bool) (print_every debug : Int)
    (hN : 1 ≤ N) (hb : 1 ≤ batch_size) :
    (∀ (e b : Nat) (s s2 : TrainState R I H C),
      stateAt P nn X y learning_rate reg batch_size grad_check print_every debug e b = some s →
      trainBatch P X y learning_rate reg batch_size grad_check print_every debug e b s
        = some s2 →
      lossIters s2.out = lossIters s.out ++
        (if 0 < print_every ∧ ((e : Int) * num_batches N batch_size + b) % print_every = 0
         then [(e : Int) * num_batches N batch_size + b] else []) ∧
      gradcheckIters s2.out = gradcheckIters s.out ++
        (if (0 < print_every ∧ ((e : Int) * num_batches N batch_size + b) % print_every = 0) ∧
            grad_check = true
         then [(e : Int) * num_batches N batch_size + b] else []) ∧
      (0 < print_every →
        snapshotIters s2.out = snapshotIters s.out ++
          (if debug ≠ 0 ∧ ((e : Int) * num_batches N batch_size + b) % print_every = 0
           then [(e : Int) * num_batches N batch_size + b] else []))) ∧
    (print_every ≤ 0 → ∃ st : TrainState R I H C,
      train P nn X y learning_rate reg epochs batch_size grad_check print_every debug = some st ∧
      lossIters st.out = [] ∧ gradcheckIters st.out = []) := by
  refine ⟨?_, ?_⟩
  · intro e b s s2 hs hstep
    have hit := stateAt_iter P nn X y learning_rate reg batch_size grad_check print_every debug
      hN hb e b s hs
    obtain ⟨hsnap, hloss, hgc⟩ := trainBatch_events P X y learning_rate reg batch_size grad_check
      print_every debug e b s s2 hstep
    obtain ⟨_, _, hnb⟩ := num_batches_bounds N batch_size (by exact_mod_cast hN) hb
    have hi : (0 : Int) ≤ (e : Int) * num_batches N batch_size + b := by positivity
    have hcad := atCadence_iff print_every _ hi
    rw [hit] at hsnap hloss hgc
    refine ⟨?_, ?_, ?_⟩
    · rw [hloss]
      simp only [hcad]
    · rw [hgc]
      simp only [hcad]
    · intro hp
      rw [hsnap]
      have hflag := printFlag_ne_zero print_every (b : Int)
        ((e : Int) * num_batches N batch_size + b)
      have hmod : ((e : Int) * num_batches N batch_size + b).tmod print_every
          = ((e : Int) * num_batches N batch_size + b) % print_every :=
        Int.tmod_eq_emod hi (by omega)
      have hcond : (debug ≠ 0 ∧ printFlag print_every (b : Int)
            ((e : Int) * num_batches N batch_size + b) ≠ 0) ↔
          (debug ≠ 0 ∧ ((e : Int) * num_batches N batch_size + b) % print_every = 0) := by
        rw [hflag, hmod]
        constructor
        · rintro ⟨hd, ⟨_, hm⟩ | ⟨hp2, _⟩⟩
          · exact ⟨hd, hm⟩
          · omega
        · rintro ⟨hd, hm⟩
          exact ⟨hd, Or.inl ⟨hp, hm⟩⟩
      simp only [hcond]
  · intro hp
    obtain ⟨st, hst⟩ := train_isSome P nn X y learning_rate reg epochs batch_size grad_check
      print_every debug (Or.inr hp) hN hb
    refine ⟨st, hst, ?_⟩
    refine train_inv P nn X y learning_rate reg epochs batch_size grad_check print_every debug
      (fun s => lossIters s.out = [] ∧ gradcheckIters s.out = []) ⟨rfl, rfl⟩ ?_ st hst
    intro e b s s2 hJ hstep
    obtain ⟨_, hloss, hgc⟩ := trainBatch_events P X y learning_rate reg batch_size grad_check
      print_every debug e b s s2 hstep
    have hc : atCadence print_every s.iter = false := by
      have : ¬ (0 < print_every) := by omega
      simp [atCadence, this]
    rw [hloss, hgc, hJ.1, hJ.2, hc]
    simp

/-- Witness for the cadence theorem: eight samples in batches of four, the
gradient check requested and the cadence disabled. -/
theorem train_report_cadence_witness :
    (1 ≤ 8 ∧ (1 : Int) ≤ 4) ∧
    ((0 : Int) ≤ 0 → ∃ st : TrainState ℚ 1 1 1,
      train ratPrimitives (unitNet 1 1 0 0) (constRow 8 0) (constRow 8 1) (1 / 2) 1 2 4
        true 0 1 = some st ∧
      lossIters st.out = [] ∧ gradcheckIters st.out = []) :=
  ⟨⟨by decide, by decide⟩,
    (train_report_cadence ratPrimitives (unitNet 1 1 0 0) (constRow 8 0) (constRow 8 1)
      (1 / 2) 1 2 4 true 0 1 (by decide) (by decide)).2⟩

/-- Counterexample to C8 as stated: one sample, one epoch, `debug` and
`grad_check` set, `print_every = 0`.  Whatever the absent numerical routines
compute, the run completes, its first batch takes the snapshot of iteration 0,
and neither a loss line nor a gradient check is in the run. -/
theorem train_report_not_first_batch :
    ¬ ∃ P : Primitives ℚ,
      (train P (unitNet 1 1 0 0) (constRow 1 0) (constRow 1 1) (1 / 2) 1 1 1
          true 0 1).map
        (fun st => (snapshotIters st.out, lossIters st.out, gradcheckIters st.out))
        ≠ some ([0], [], []) := by
  rintro ⟨P, h⟩
  exact h rfl

/-- No batch step of `parallel_train` assigns to the host network. -/
theorem parallelBatch_nn (P : Primitives R) {N : Nat}
    (files : Int → Option (NeuralNetwork R I H C))
    (X : Matrix (Fin I) (Fin N) R) (y : Matrix (Fin C) (Fin N) R) (batch_size : Int)
    (print_every debug : Int) (batch : Int) (st st2 : ParallelState R I H C)
    (h : parallelBatch P files X y batch_size print_every debug batch st = some st2) :
    st2.nn = st.nn := by
  unfold parallelBatch at h
  simp only [] at h
  split_ifs at h
  · cases hf : files st.iter with
    | none => rw [hf] at h; simp at h
    | some loaded =>
      rw [hf] at h
      simp only [Option.some.injEq] at h
      rw [← h]
  · simp only [Option.some.injEq] at h
    rw [← h]

/-- A run of `parallel_train` that completes leaves the host network as it
found it. -/
theorem parallel_train_nn (P : Primitives R) {N : Nat}
    (files : Int → Option (NeuralNetwork R I H C)) (nn : NeuralNetwork R I H C)
    (X : Matrix (Fin I) (Fin N) R) (y : Matrix (Fin C) (Fin N) R) (learning_rate reg : R)
    (epochs batch_size : Int) (grad_check : Bool) (print_every debug : Int)
    (st : ParallelState R I H C)
    (h : parallel_train P files nn X y learning_rate reg epochs batch_size grad_check
      print_every debug = some st) : st.nn = nn := by
  unfold parallel_train at h
  refine foldlM_range_inv _ (fun _ s => s.nn = nn) epochs.toNat _ st rfl ?_ h
  intro e s s2 _ hJ he
  split_ifs at he
  refine foldlM_range_inv _ (fun _ s => s.nn = nn) _ s s2 hJ ?_ he
  intro b s3 s4 _ hJ3 h34
  rw [parallelBatch_nn P files X y batch_size print_every debug b s3 s4 h34, hJ3]

/-- C5, evaluated: one unit per layer, `W[0] = 1`, one sample with feature 0,
`learning_rate = 1/2`, `reg = 1`, one epoch of one batch.  Whatever the absent
numerical routines compute, `train` leaves `W[0] = 1/2` while `parallel_train`
on one worker completes and leaves `W[0] = 1`. -/
theorem parallel_train_differs (P : Primitives ℚ) :
    (train P (unitNet 1 1 0 0) (constRow 1 0) (constRow 1 1) (1 / 2) 1 1 1 false 0 0).map
        (fun st => st.nn.W0 0 0) = some (1 / 2) ∧
    (parallel_train P (fun _ => none) (unitNet 1 1 0 0) (constRow 1 0) (constRow 1 1) (1 / 2) 1
        1 1 false 0 0).map (fun st => st.nn.W0 0 0) = some 1 := by
  constructor
  · have h := train_single_batch P (unitNet 1 1 0 0) (constRow 1 0) (constRow 1 1) (1 / 2) 1 1
      false 0 0 (by decide) (by decide)
    rw [assertFails_safe P _ _ _ _ false 0 0 (Or.inl rfl)] at h
    simp only [Bool.false_eq_true, if_false] at h
    cases ht : train P (unitNet 1 1 0 0) (constRow 1 0) (constRow 1 1) (1 / 2) 1 1 1 false 0 0 with
    | none => rw [ht] at h; simp at h
    | some st =>
      rw [ht] at h
      simp only [Option.map_some', Option.some.injEq] at h
      simp only [Option.map_some', Option.some.injEq, h]
      have hX : ∀ (m : NeuralNetwork ℚ 1 1 1) (Z : Matrix (Fin 1) (Fin 1) ℚ),
          (feedforward P m Z).X = Z := fun _ _ => rfl
      simp [gradientStep, backprop, hX, unitNet, constRow, Matrix.mul_apply]
      norm_num
  · rfl


/-- The maximum norm of a zero matrix is zero. -/
theorem normInf_zero {m k : Nat} : normInf (0 : Matrix (Fin m) (Fin k) R) = 0 := by
  have h1 : ∀ (ι : Type) (l : List ι), l.foldl (fun (acc : R) _ => max acc 0) 0 = 0 := by
    intro ι l
    induction l with
    | nil => rfl
    | cons a l ih => rw [List.foldl_cons, max_self, ih]
  have h2 : ∀ l : List (Fin m),
      l.foldl (fun (acc : R) _ => (List.finRange k).foldl (fun (acc : R) _ => max acc 0) acc) 0
        = 0 := by
    intro l
    induction l with
    | nil => rfl
    | cons a l ih => rw [List.foldl_cons, h1, ih]
  unfold normInf
  split_ifs
  · simp only [Matrix.zero_apply, abs_zero, h2]
  · simp only [Matrix.zero_apply, abs_zero, Finset.sum_const_zero, h1]

/-- The quotient of the source for a zero dividend and a zero divisor. -/
theorem realDiv_zero_zero : realDiv (0 : R) 0 = DivResult.undefined := by
  simp [realDiv]

/-- C9 as the code has it: `write_diff_gpu_cpu` writes one row (after the
title line when `iter = 0`), and for each of the four tensors, when the loaded
reference tensor and the model tensor are both identically zero, the
max-relative-error and the L2-relative-error of that tensor are both the
undefined value of `0 / 0`: the division by the zero reference norm is not
guarded.  (The 2-norm of the numerical library is zero on a zero matrix.) -/
theorem write_diff_zero_reference (P : Primitives R) (nn loaded : NeuralNetwork R I H C)
    (iter : Int) (hnorm : ∀ m k : Nat, P.norm2 (0 : Matrix (Fin m) (Fin k) R) = 0) :
    ∃ r : ErrorRow R,
      write_diff_gpu_cpu P nn iter loaded
        = (if iter = 0 then [ErrorLine.header] else []) ++ [ErrorLine.row r] ∧
      r.iter = iter ∧
      (nn.W0 = 0 → loaded.W0 = 0 →
        r.max_errW0 = DivResult.undefined ∧ r.L2_errW0 = DivResult.undefined) ∧
      (nn.W1 = 0 → loaded.W1 = 0 →
        r.max_errW1 = DivResult.undefined ∧ r.L2_errW1 = DivResult.undefined) ∧
      (nn.b0 = 0 → loaded.b0 = 0 →
        r.max_errb0 = DivResult.undefined ∧ r.L2_errb0 = DivResult.undefined) ∧
      (nn.b1 = 0 → loaded.b1 = 0 →
        r.max_errb1 = DivResult.undefined ∧ r.L2_errb1 = DivResult.undefined) := by
  have hcol : ∀ m : Nat, colMat (0 : Fin m → R) = 0 := fun m => rfl
  refine ⟨_, rfl, rfl, ?_, ?_, ?_, ?_⟩
  · intro h1 h2
    simp only [h1, h2, maxErr, l2Err, sub_zero, normInf_zero, hnorm, realDiv_zero_zero,
      and_self]
  · intro h1 h2
    simp only [h1, h2, maxErr, l2Err, sub_zero, normInf_zero, hnorm, realDiv_zero_zero,
      and_self]
  · intro h1 h2
    simp only [h1, h2, hcol, maxErr, l2Err, sub_zero, normInf_zero, hnorm, realDiv_zero_zero,
      and_self]
  · intro h1 h2
    simp only [h1, h2, hcol, maxErr, l2Err, sub_zero, normInf_zero, hnorm, realDiv_zero_zero,
      and_self]

/-- Witness for the divergence theorem: the all-zero network with one unit per
layer against an all-zero reference at iteration 1. -/
theorem write_diff_zero_reference_witness :
    (∀ m k : Nat, ratPrimitives.norm2 (0 : Matrix (Fin m) (Fin k) ℚ) = 0) ∧
    ∃ r : ErrorRow ℚ,
      write_diff_gpu_cpu ratPrimitives (unitNet 0 0 0 0) 1 (unitNet 0 0 0 0)
        = (if (1 : Int) = 0 then [ErrorLine.header] else []) ++ [ErrorLine.row r] ∧
      r.iter = 1 ∧
      ((unitNet 0 0 0 0).W0 = 0 → (unitNet 0 0 0 0).W0 = 0 →
        r.max_errW0 = DivResult.undefined ∧ r.L2_errW0 = DivResult.undefined) ∧
      ((unitNet 0 0 0 0).W1 = 0 → (unitNet 0 0 0 0).W1 = 0 →
        r.max_errW1 = DivResult.undefined ∧ r.L2_errW1 = DivResult.undefined) ∧
      ((unitNet 0 0 0 0).b0 = 0 → (unitNet 0 0 0 0).b0 = 0 →
        r.max_errb0 = DivResult.undefined ∧ r.L2_errb0 = DivResult.undefined) ∧
      ((unitNet 0 0 0 0).b1 = 0 → (unitNet 0 0 0 0).b1 = 0 →
        r.max_errb1 = DivResult.undefined ∧ r.L2_errb1 = DivResult.undefined) :=
  ⟨fun m k => by simp [ratPrimitives],
    write_diff_zero_reference ratPrimitives (unitNet 0 0 0 0) (unitNet 0 0 0 0) 1
      (fun m k => by simp [ratPrimitives])⟩

/-- Counterexample to C9 as stated: for the all-zero network with one unit
per layer and an all-zero reference, no choice of the absent routines makes
`write_diff_gpu_cpu` write the row of zero errors. -/
theorem write_diff_zero_not_zero :
    ¬ ∃ P : Primitives ℚ,
      write_diff_gpu_cpu P (unitNet 0 0 0 0) 1 (unitNet 0 0 0 0)
        = [ErrorLine.row
            { iter := 1, max_errW0 := DivResult.finite (0 : ℚ), max_errW1 := DivResult.finite 0,
              max_errb0 := DivResult.finite 0, max_errb1 := DivResult.finite 0,
              L2_errW0 := DivResult.finite 0, L2_errW1 := DivResult.finite 0,
              L2_errb0 := DivResult.finite 0, L2_errb1 := DivResult.finite 0 }] := by
  rintro ⟨P, h⟩
  have hz : (unitNet 0 0 0 0).W0 = 0 := rfl
  have hm : maxErr (unitNet 0 0 0 0).W0 (unitNet 0 0 0 0).W0 = DivResult.undefined := by
    rw [hz]
    simp only [maxErr, sub_zero, normInf_zero, realDiv_zero_zero]
  simp only [write_diff_gpu_cpu, hm] at h
  simp at h

/-- Witness for C1: one unit per layer and a batch of one sample. -/
theorem backprop_formula_witness :
    1 ≤ 1 ∧
    (∀ i j, (backprop (unitNet 1 1 0 0) (constRow 1 1) 1
        (feedforward ratPrimitives (unitNet 1 1 0 0) (constRow 1 2))).dW1 i j
      = (∑ k, (((feedforward ratPrimitives (unitNet 1 1 0 0) (constRow 1 2)).yc i k
            - constRow 1 1 i k) / ((1 : Nat) : ℚ))
          * (feedforward ratPrimitives (unitNet 1 1 0 0) (constRow 1 2)).a0 j k)
        + 1 * (unitNet 1 1 0 0).W1 i j) :=
  ⟨by decide,
    (backprop_formula (unitNet 1 1 0 0) (constRow 1 1) 1
      (feedforward ratPrimitives (unitNet 1 1 0 0) (constRow 1 2)) (by decide)).1⟩

/-- Witness for C6: two output rows, three samples. -/
theorem predict_first_max_witness :
    0 < 2 ∧
    ∃ k : Fin 2, predict ratPrimitives tieNet (constRow 3 0) 0 = ((k.val : Nat) : ℚ) ∧
      (∀ r, (feedforward ratPrimitives tieNet (constRow 3 0)).yc r 0
          ≤ (feedforward ratPrimitives tieNet (constRow 3 0)).yc k 0) ∧
      (∀ r, r < k → (feedforward ratPrimitives tieNet (constRow 3 0)).yc r 0
          < (feedforward ratPrimitives tieNet (constRow 3 0)).yc k 0) :=
  ⟨by decide, predict_first_max ratPrimitives tieNet (constRow 3 0) (by decide) 0⟩

/-- The entries of a slice accepted by `cols`: column `j` of the slice is
column `first + j` of the matrix, and the slice has `last - first + 1`
columns. -/
theorem cols_apply {m N : Nat} (M : Matrix (Fin m) (Fin N) R) (first last : Int)
    (h0 : 0 ≤ first) (h1 : first ≤ last) (h2 : last < (N : Int)) :
    (((last + 1 - first).toNat : Nat) : Int) = last - first + 1 ∧
    ∀ (i : Fin m) (j : Fin (last + 1 - first).toNat),
      ∃ h : (first + (j.val : Int)).toNat < N,
        cols M first last i j = M i ⟨(first + (j.val : Int)).toNat, h⟩ ∧
        (((first + (j.val : Int)).toNat : Nat) : Int) = first + j.val ∧
        first + j.val ≤ last := by
  refine ⟨by omega, ?_⟩
  intro i j
  have hj := j.isLt
  have h : (first + (j.val : Int)).toNat < N := by omega
  refine ⟨h, ?_, by omega, by omega⟩
  unfold cols
  rw [dif_pos h]

/-- One epoch that completes has applied the gradient step of every batch in
turn, batch `k` on the slice of its column range. -/
theorem trainEpoch_nn (P : Primitives R) {N : Nat} (X : Matrix (Fin I) (Fin N) R)
    (y : Matrix (Fin C) (Fin N) R) (learning_rate reg : R) (batch_size : Int)
    (grad_check : Bool) (print_every debug : Int) (epoch : Int)
    (st st2 : TrainState R I H C)
    (h : trainEpoch P X y learning_rate reg batch_size grad_check print_every debug epoch st
      = some st2) :
    st2.nn = (List.range (num_batches N batch_size).toNat).foldl
      (fun (m : NeuralNetwork R I H C) (k : Nat) => gradientStep m learning_rate
        (backprop m (cols y ((k : Int) * batch_size) (last_col N batch_size k)) reg
          (feedforward P m (cols X ((k : Int) * batch_size) (last_col N batch_size k))))) st.nn := by
  unfold trainEpoch at h
  split_ifs at h
  refine foldlM_range_inv _
    (fun k s => s.nn = (List.range k).foldl
      (fun (m : NeuralNetwork R I H C) (k : Nat) => gradientStep m learning_rate
        (backprop m (cols y ((k : Int) * batch_size) (last_col N batch_size k)) reg
          (feedforward P m (cols X ((k : Int) * batch_size) (last_col N batch_size k))))) st.nn)
    _ st st2 rfl ?_ h
  intro k s s2 _ hinv hstep
  obtain ⟨_, _, hnn, _, _, _⟩ := trainBatch_some P X y learning_rate reg batch_size grad_check
    print_every debug epoch k s s2 hstep
  rw [List.range_succ, List.foldl_append, List.foldl_cons, List.foldl_nil, ← hinv, hnn]

/-- With `epochs = 1` the run of `train` is the one epoch 0 from the initial
state. -/
theorem train_one_epoch (P : Primitives R) {N : Nat} (nn : NeuralNetwork R I H C)
    (X : Matrix (Fin I) (Fin N) R) (y : Matrix (Fin C) (Fin N) R) (learning_rate reg : R)
    (batch_size : Int) (grad_check : Bool) (print_every debug : Int) :
    train P nn X y learning_rate reg 1 batch_size grad_check print_every debug
      = trainEpoch P X y learning_rate reg batch_size grad_check print_every debug 0
          { nn := nn, iter := 0, print_flag := 0, out := [] } := by
  unfold train
  have h1 : (1 : Int).toNat = 1 := rfl
  rw [h1]
  simp [List.range_succ]

/-- C3: for `N ≥ 1` samples and `batch_size ≥ 1`, `num_batches` is
`ceil(N / batch_size)` and one epoch of `train` runs the batch step that many
times (and does run to the end when no gradient check can stop it); batch `k`
takes the columns `k * batch_size` to `min((k+1) * batch_size - 1, N - 1)`,
a range accepted by `cols`, not empty and inside `[0, N-1]`; consecutive
ranges are adjacent, every column of `[0, N-1]` lies in exactly one of them,
every batch but the last has `batch_size` columns and the last has the
remaining ones; no value computed for the schedule exceeds
`N + batch_size - 1`.  The batch step `k` of `train` is the step on the
slices of `X` and `y` at that range, whose column `j` is column
`k * batch_size + j` of `X` and `y`, and the network after one completed epoch
is the result of the gradient steps on these slices for
`k = 0, ..., num_batches - 1` in this order. -/
theorem train_batch_schedule (P : Primitives R) {N : Nat} (nn : NeuralNetwork R I H C)
    (X : Matrix (Fin I) (Fin N) R) (y : Matrix (Fin C) (Fin N) R) (learning_rate reg : R)
    (batch_size : Int) (grad_check : Bool) (print_every debug : Int)
    (hN : 1 ≤ N) (hb : 1 ≤ batch_size) :
    (Int.ceil (((N : Int) : ℚ) / (batch_size : ℚ)) = num_batches N batch_size ∧
    (∀ st, train P nn X y learning_rate reg 1 batch_size grad_check print_every debug = some st →
      st.iter = num_batches N batch_size) ∧
    (∃ st, train P nn X y learning_rate reg 1 batch_size false print_every debug = some st) ∧
    (∀ k : Int, 0 ≤ k → k < num_batches N batch_size →
      colsInBounds N (k * batch_size) (last_col N batch_size k) = true ∧
      0 ≤ k * batch_size ∧ k * batch_size ≤ last_col N batch_size k ∧
      last_col N batch_size k ≤ (N : Int) - 1) ∧
    (∀ k : Int, 0 ≤ k → k + 1 < num_batches N batch_size →
      (k + 1) * batch_size = last_col N batch_size k + 1 ∧
      last_col N batch_size k - k * batch_size + 1 = batch_size) ∧
    (last_col N batch_size (num_batches N batch_size - 1) = (N : Int) - 1 ∧
      1 ≤ (N : Int) - (num_batches N batch_size - 1) * batch_size ∧
      (N : Int) - (num_batches N batch_size - 1) * batch_size ≤ batch_size) ∧
    (∀ c : Int, 0 ≤ c → c ≤ (N : Int) - 1 →
      ∃! k : Int, 0 ≤ k ∧ k < num_batches N batch_size ∧
        k * batch_size ≤ c ∧ c ≤ last_col N batch_size k) ∧
    (∀ k : Int, 0 ≤ k → k < num_batches N batch_size →
      0 ≤ (k + 1) * batch_size - 1 ∧
        (k + 1) * batch_size - 1 ≤ (N : Int) + batch_size - 1)) ∧
    (∀ (k : Nat), (k : Int) < num_batches N batch_size →
      ∀ (epoch : Int) (st : TrainState R I H C),
        trainBatch P X y learning_rate reg batch_size grad_check print_every debug epoch k st
          = if assertFails P st.nn (cols X ((k : Int) * batch_size) (last_col N batch_size k))
                (cols y ((k : Int) * batch_size) (last_col N batch_size k)) reg grad_check
                print_every st.iter then none
            else some
              { nn := gradientStep st.nn learning_rate
                  (backprop st.nn (cols y ((k : Int) * batch_size) (last_col N batch_size k)) reg
                    (feedforward P st.nn
                      (cols X ((k : Int) * batch_size) (last_col N batch_size k))))
                iter := st.iter + 1
                print_flag := printFlag print_every k st.iter
                out := st.out ++
                  reportEvents P st.nn
                    (cols X ((k : Int) * batch_size) (last_col N batch_size k))
                    (cols y ((k : Int) * batch_size) (last_col N batch_size k)) reg grad_check
                    print_every st.iter epoch ++
                  (if debug ≠ 0 ∧ printFlag print_every k st.iter ≠ 0 then
                    [Event.snapshot st.iter (gradientStep st.nn learning_rate
                      (backprop st.nn
                        (cols y ((k : Int) * batch_size) (last_col N batch_size k)) reg
                        (feedforward P st.nn
                          (cols X ((k : Int) * batch_size) (last_col N batch_size k)))))]
                  else []) }) ∧
    (∀ (m : Nat) (M : Matrix (Fin m) (Fin N) R) (k : Int), 0 ≤ k →
      k < num_batches N batch_size →
      (((last_col N batch_size k + 1 - k * batch_size).toNat : Nat) : Int)
        = last_col N batch_size k - k * batch_size + 1 ∧
      ∀ (i : Fin m) (j : Fin (last_col N batch_size k + 1 - k * batch_size).toNat),
        ∃ h : (k * batch_size + (j.val : Int)).toNat < N,
          cols M (k * batch_size) (last_col N batch_size k) i j
            = M i ⟨(k * batch_size + (j.val : Int)).toNat, h⟩ ∧
          (((k * batch_size + (j.val : Int)).toNat : Nat) : Int) = k * batch_size + j.val ∧
          k * batch_size + j.val ≤ last_col N batch_size k) ∧
    (train P nn X y learning_rate reg 1 batch_size grad_check print_every debug
      = (List.range (num_batches N batch_size).toNat).foldlM
          (fun s (batch : Nat) => trainBatch P X y learning_rate reg batch_size grad_check
            print_every debug 0 (batch : Int) s)
          { nn := nn, iter := 0, print_flag := 0, out := [] }) ∧
    (∀ st, train P nn X y learning_rate reg 1 batch_size grad_check print_every debug = some st →
      st.nn = (List.range (num_batches N batch_size).toNat).foldl
        (fun (m : NeuralNetwork R I H C) (k : Nat) => gradientStep m learning_rate
          (backprop m (cols y ((k : Int) * batch_size) (last_col N batch_size k)) reg
            (feedforward P m (cols X ((k : Int) * batch_size) (last_col N batch_size k)))))
        nn) := by
  have hN2 : (1 : Int) ≤ (N : Int) := by exact_mod_cast hN
  refine ⟨train_schedule_counts P nn X y learning_rate reg batch_size grad_check print_every
    debug hN hb, ?_, ?_, ?_, ?_⟩
  · intro k hk epoch st
    exact trainBatch_eq P X y learning_rate reg batch_size grad_check print_every debug epoch k
      st (colsInBounds_batch N batch_size hN hb k (by omega) hk)
  · intro m M k hk0 hk
    obtain ⟨r1, r2, r3, _, _⟩ := batch_range N batch_size hN2 hb k hk0 hk
    exact cols_apply M (k * batch_size) (last_col N batch_size k) r1 r2 (by omega)
  · rw [train_one_epoch]
    unfold trainEpoch
    rw [if_neg (by omega)]
  · intro st hst
    rw [train_one_epoch] at hst
    exact trainEpoch_nn P X y learning_rate reg batch_size grad_check print_every debug 0 _ st
      hst

/-- Witness for C3: eight samples and `batch_size = 4` give two batches, the
second batch is the columns 4 to 7, and the network after the epoch is the
second gradient step applied after the first. -/
theorem train_batch_schedule_witness :
    (1 ≤ 8 ∧ (1 : Int) ≤ 4) ∧
    (num_batches (8 : Nat) 4 = 2 ∧ (1 : Int) * 4 = 4 ∧ last_col (8 : Nat) 4 1 = 7) ∧
    Int.ceil ((((8 : Nat) : Int) : ℚ) / ((4 : Int) : ℚ)) = num_batches (8 : Nat) 4 ∧
    (∀ st, train ratPrimitives (unitNet 1 1 0 0) (constRow 8 0) (constRow 8 1) (1 / 2) 1 1 4
        false 0 0 = some st → st.iter = num_batches (8 : Nat) 4) ∧
    (∀ st, train ratPrimitives (unitNet 1 1 0 0) (constRow 8 0) (constRow 8 1) (1 / 2) 1 1 4
        false 0 0 = some st →
      st.nn = (List.range (num_batches (8 : Nat) 4).toNat).foldl
        (fun (m : NeuralNetwork ℚ 1 1 1) (k : Nat) => gradientStep m (1 / 2)
          (backprop m (cols (constRow 8 1) ((k : Int) * 4) (last_col (8 : Nat) 4 k)) 1
            (feedforward ratPrimitives m
              (cols (constRow 8 0) ((k : Int) * 4) (last_col (8 : Nat) 4 k)))))
        (unitNet 1 1 0 0)) :=
  ⟨⟨by decide, by decide⟩, ⟨by decide, by decide, by decide⟩,
    (train_batch_schedule ratPrimitives (unitNet 1 1 0 0) (constRow 8 0) (constRow 8 1) (1 / 2)
      1 4 false 0 0 (by decide) (by decide)).1.1,
    (train_batch_schedule ratPrimitives (unitNet 1 1 0 0) (constRow 8 0) (constRow 8 1) (1 / 2)
      1 4 false 0 0 (by decide) (by decide)).1.2.1,
    (train_batch_schedule ratPrimitives (unitNet 1 1 0 0) (constRow 8 0) (constRow 8 1) (1 / 2)
      1 4 false 0 0 (by decide) (by decide)).2.2.2.2⟩

end EngineTheorems

end NeuralNet
